import Mathlib

/-!
Verification development for pg_backup_auditor.

Shallow embedding of the C sources:
strings are lists of characters, machine integers are natural numbers
reduced modulo 2 ^ 32 or 2 ^ 64 where the C code truncates, and the
filesystem and libc time functions are oracles packaged in a structure.
-/

/-- Character class of isspace in the C locale (space, tab, newline,
vertical tab, form feed, carriage return). -/
def isSpaceChar (c : Char) : Bool :=
  c == ' ' || c == '\t' || c == '\n' || c == '\x0b' || c == '\x0c' || c == '\r'

/-- Character class of isxdigit in the C locale. -/
def isHexDigitChar (c : Char) : Bool :=
  decide ((48 ≤ c.toNat ∧ c.toNat ≤ 57) ∨ (97 ≤ c.toNat ∧ c.toNat ≤ 102) ∨
    (65 ≤ c.toNat ∧ c.toNat ≤ 70))

/-- Numeric value of one hexadecimal digit character. -/
def hexDigitVal (c : Char) : Nat :=
  if 48 ≤ c.toNat ∧ c.toNat ≤ 57 then c.toNat - 48
  else if 97 ≤ c.toNat ∧ c.toNat ≤ 102 then c.toNat - 87
  else if 65 ≤ c.toNat ∧ c.toNat ≤ 70 then c.toNat - 55
  else 0

/-- Value of a hexadecimal digit string, most significant digit first. -/
def hexVal (l : List Char) : Nat :=
  l.foldl (fun a c => a * 16 + hexDigitVal c) 0

/-- ULONG_MAX on the LP64 targets the program is built for. -/
def C_ULONG_MAX : Nat := 2 ^ 64 - 1

/-- Whether a list starts with a hexadecimal digit. -/
def headIsHex (l : List Char) : Bool :=
  match l.head? with
  | some c => isHexDigitChar c
  | none => false

/-- Embedding of libc strtoul(str, &endptr, 16): skips isspace characters,
accepts one optional sign and an optional 0x / 0X prefix when a hex digit
follows, converts the maximal run of hex digits, saturates at ULONG_MAX on
overflow and negates modulo 2 ^ 64 for a minus sign.  Returns the value and
the number of characters consumed (endptr minus str); a conversion that
finds no digits consumes nothing.  A 0x prefix with no digit after it
converts just the 0 (covered below by the digit run stopping at the x). -/
def strtoul16 (s : List Char) : Nat × Nat :=
  let w := s.takeWhile isSpaceChar
  let r1 := s.drop w.length
  let sgnLen : Nat := if r1.take 1 = ['+'] ∨ r1.take 1 = ['-'] then 1 else 0
  let neg : Bool := if r1.take 1 = ['-'] then true else false
  let r2 := r1.drop sgnLen
  let pfx : Nat :=
    if (r2.take 2 = ['0', 'x'] ∨ r2.take 2 = ['0', 'X']) ∧ headIsHex (r2.drop 2) then 2 else 0
  let r3 := r2.drop pfx
  let d := r3.takeWhile isHexDigitChar
  if d.isEmpty then (0, 0)
  else
    let v0 := hexVal d
    let v1 := if C_ULONG_MAX < v0 then C_ULONG_MAX else v0
    let v := if neg then (2 ^ 64 - v1) % 2 ^ 64 else v1
    (v, w.length + sgnLen + pfx + d.length)

/-- Index of the first occurrence of a character (strchr). -/
def strchrIdx : List Char → Char → Option Nat
  | [], _ => none
  | x :: t, c => if x == c then some 0 else (strchrIdx t c).map (· + 1)

/-- Embedding of parse_lsn from src/common/xlog.c: find the first slash,
convert the part before it with strtoul base 16 requiring the conversion to
end exactly at the slash, convert the part after it requiring the
conversion to end at the end of the string, and combine the two unsigned
long values as ((uint64_t)upper << 32) | lower. -/
def parse_lsn (s : List Char) : Option Nat :=
  match strchrIdx s '/' with
  | none => none
  | some i =>
    let u := strtoul16 s
    if u.2 = i then
      let t := s.drop (i + 1)
      let l := strtoul16 t
      if l.2 = t.length then
        some (Nat.lor (u.1 * 2 ^ 32 % 2 ^ 64) l.1)
      else none
    else none

/-- Uppercase hexadecimal digit character for a value below 16. -/
def hexDigitUpper (n : Nat) : Char :=
  if n < 10 then Char.ofNat (48 + n) else Char.ofNat (55 + n)

/-- Digit emission loop of printf %X, structured on fuel so that it
computes by kernel reduction.  Emits the digits of n in front of acc. -/
def toHexUpperCore : Nat → Nat → List Char → List Char
  | 0, _, acc => acc
  | fuel + 1, n, acc =>
    let acc2 := hexDigitUpper (n % 16) :: acc
    if n < 16 then acc2 else toHexUpperCore fuel (n / 16) acc2

/-- printf %X rendering of a uint32_t value: minimal uppercase hex digits,
a single 0 for zero.  Nine fuel steps cover every value below 2 ^ 32. -/
def u32HexUpper (n : Nat) : List Char :=
  toHexUpperCore 9 (n % 2 ^ 32) []

/-- Embedding of format_lsn from src/common/xlog.c: snprintf
"%X/%X" of (uint32_t)(lsn >> 32) and (uint32_t)lsn. -/
def format_lsn (lsn : Nat) : List Char :=
  u32HexUpper (lsn / 2 ^ 32) ++ '/' :: u32HexUpper lsn

/-- WAL segment identifier triple (all fields uint32_t). -/
structure WALSegmentName where
  timeline : Nat
  log_id : Nat
  seg_id : Nat
deriving DecidableEq, Repr

/-- Embedding of lsn_to_seg from src/common/xlog.c: defaulted segment
size, segment number = lsn / size, split into log_id and seg_id by
dividing and reducing modulo 2 ^ 32. -/
def lsn_to_seg (lsn : Nat) (timeline : Nat) (wal_segment_size : Nat) : WALSegmentName :=
  let size := if wal_segment_size = 0 then 0x1000000 else wal_segment_size
  let segno := lsn / size
  ⟨timeline, segno / 2 ^ 32 % 2 ^ 32, segno % 2 ^ 32⟩

/-- Embedding of parse_wal_filename from xlog.c (the implemented
variant): the name must be exactly 24 characters, all hexadecimal; the
three 8-character fields are then each converted with strtoul base 16 and
stored through uint32_t casts. -/
def parse_wal_filename (filename : List Char) : Option WALSegmentName :=
  if filename.length ≠ 24 then none
  else if ¬ (filename.all isHexDigitChar) then none
  else
    let tstr := filename.take 8
    let lstr := (filename.drop 8).take 8
    let sstr := (filename.drop 16).take 8
    let t := strtoul16 tstr
    if t.2 ≠ tstr.length then none
    else
      let l := strtoul16 lstr
      if l.2 ≠ lstr.length then none
      else
        let s := strtoul16 sstr
        if s.2 ≠ sstr.length then none
        else some ⟨t.1 % 2 ^ 32, l.1 % 2 ^ 32, s.1 % 2 ^ 32⟩

/-- BackupStatus enum from include/types.h (declaration order matters:
the value zero, the memset default, is OK). -/
inductive BackupStatus where
  | OK
  | RUNNING
  | CORRUPT
  | ERROR
  | ORPHAN
  | WARNING
deriving DecidableEq, Repr

/-- BackupType enum from include/types.h (zero value FULL). -/
inductive BackupType where
  | FULL
  | INCREMENTAL
  | PAGE
  | DELTA
  | PTRACK
deriving DecidableEq, Repr

/-- BackupTool enum from include/types.h (zero value UNKNOWN). -/
inductive BackupTool where
  | UNKNOWN
  | PG_BASEBACKUP
  | PG_PROBACKUP
deriving DecidableEq, Repr

/-- BackupInfo record from include/types.h (the intrusive next pointer is
list linkage and is left out). -/
structure BackupInfo where
  backup_id : List Char
  node_name : List Char
  instance_name : List Char
  type : BackupType
  tool : BackupTool
  status : BackupStatus
  start_time : Int
  end_time : Int
  start_lsn : Nat
  stop_lsn : Nat
  timeline : Nat
  pg_version : Nat
  tool_version : List Char
  parent_backup_id : List Char
  backup_path : List Char
  data_bytes : Nat
  wal_bytes : Nat
  backup_method : List Char
  backup_from : List Char
  backup_label : List Char
  wal_start_file : List Char
deriving DecidableEq, Repr

/-- The all-zero BackupInfo produced by calloc / memset. -/
def zeroBackupInfo : BackupInfo :=
  ⟨[], [], [], .FULL, .UNKNOWN, .OK, 0, 0, 0, 0, 0, 0, [], [], [], 0, 0, [], [], [], []⟩

/-- ValidationResult from include/types.h; the C error_count and
warning_count always equal the lengths of the two arrays, so the
embedding keeps only the lists. -/
structure ValidationResult where
  status : BackupStatus
  errors : List (List Char)
  warnings : List (List Char)
deriving DecidableEq, Repr

/-- Embedding of segment_exists_in_archive from wal_validator.c: linear
scan comparing all three fields. -/
def segment_exists_in_archive (seg : WALSegmentName) (wal : List WALSegmentName) : Bool :=
  wal.any (fun a => a.timeline == seg.timeline && a.log_id == seg.log_id && a.seg_id == seg.seg_id)

/-- The error text "Missing WAL segment: %08X%08X%08X"; hex8 is the
%08X rendering of a uint32_t. -/
def hex8 (n : Nat) : List Char :=
  List.replicate (8 - (u32HexUpper n).length) '0' ++ u32HexUpper n

/-- Error message naming one missing segment in 24-hex form. -/
def missingSegMsg (seg : WALSegmentName) : List Char :=
  ("Missing WAL segment: ").data ++ hex8 seg.timeline ++ hex8 seg.log_id ++ hex8 seg.seg_id

/-- Terminal error appended by the safety bound of the enumeration. -/
def walAbortMsg : List Char :=
  ("WAL range check aborted: too many segments").data

/-- Warning for a backup that carries no LSN information. -/
def noLsnMsg : List Char :=
  ("Backup has no LSN information").data

/-- The while loop of check_wal_availability, on explicit fuel.  The C
loop state is current_seg plus the error array and missing_count; seg_id
increments wrap into log_id, both modulo 2 ^ 32, and after each
increment the safety check compares the new log_id against
stop_seg.log_id + 1 computed in unsigned int arithmetic. -/
def wal_avail_loop (fuel : Nat) (stop_seg : WALSegmentName) (wal : List WALSegmentName)
    (cur : WALSegmentName) (errs : List (List Char)) (missing : Nat) :
    Option (List (List Char) × Nat) :=
  match fuel with
  | 0 => none
  | fuel + 1 =>
    if cur.log_id < stop_seg.log_id ∨ (cur.log_id = stop_seg.log_id ∧ cur.seg_id ≤ stop_seg.seg_id) then
      let errs2 := if segment_exists_in_archive cur wal then errs else errs ++ [missingSegMsg cur]
      let missing2 := if segment_exists_in_archive cur wal then missing else missing + 1
      let nseg := (cur.seg_id + 1) % 2 ^ 32
      let nlog := if nseg = 0 then (cur.log_id + 1) % 2 ^ 32 else cur.log_id
      if (stop_seg.log_id + 1) % 2 ^ 32 < nlog then
        some (errs2 ++ [walAbortMsg], missing2)
      else
        wal_avail_loop fuel stop_seg wal ⟨cur.timeline, nlog, nseg⟩ errs2 missing2
    else
      some (errs, missing)

/-- Fuel handed to the embedded loop; large enough for every run the C
loop can perform (proved below for the reachable inputs). -/
def WAL_CHECK_FUEL : Nat := 2 ^ 66

/-- Embedding of check_wal_availability from wal_validator.c.  A backup
with both LSNs zero short-circuits to a single warning; otherwise both
LSNs are converted to segments with the default 16 MiB segment size and
the range is enumerated; the final status is ERROR exactly when
missing_count ended positive. -/
def check_wal_availability (backup : BackupInfo) (wal : List WALSegmentName) :
    Option ValidationResult :=
  if backup.start_lsn = 0 ∧ backup.stop_lsn = 0 then
    some ⟨.WARNING, [], [noLsnMsg]⟩
  else
    let start_seg := lsn_to_seg backup.start_lsn backup.timeline 0x1000000
    let stop_seg := lsn_to_seg backup.stop_lsn backup.timeline 0x1000000
    match wal_avail_loop WAL_CHECK_FUEL stop_seg wal start_seg [] 0 with
    | none => none
    | some (errs, missing) =>
      some ⟨if 0 < missing then .ERROR else .OK, errs, []⟩

/-- Filesystem, external process and libc time oracles.  files returns
the fgets lines of a readable file, entries the readdir listing of an
openable directory, tar the lines an external tar extraction streams for
one member, mkt is libc mktime applied to the tm fields as stored, and
nowId the formatted local time used as a fallback backup id. -/
structure FileSystem where
  dirs : List Char → Bool
  files : List Char → Option (List (List Char))
  entries : List Char → Option (List (List Char))
  tar : List Char → List Char → List (List Char)
  mtimeOf : List Char → Option Int
  sizeOf : List Char → Option Nat
  dirSizeOf : List Char → Nat
  mkt : Int → Int → Int → Int → Int → Int → Int
  nowId : List Char
  nowTime : Int

/-- Embedding of file_exists from file_utils.c: stat succeeds on any
existing path, directory or file. -/
def file_exists (fs : FileSystem) (p : List Char) : Bool :=
  (fs.files p).isSome || fs.dirs p

/-- Embedding of path_join from file_utils.c, without the PATH_MAX
truncation of the destination buffer (the helper is a generic external
collaborator): append a separator unless path1 is empty or already ends
in a slash, and skip one leading slash of path2. -/
def path_join (p1 p2 : List Char) : List Char :=
  let base := if p1 ≠ [] ∧ p1.getLast? ≠ some '/' then p1 ++ ['/'] else p1
  let rest := match p2 with
    | '/' :: r => r
    | r => r
  base ++ rest

/-- The message "Invalid LSN range: start_lsn (A) >= stop_lsn (B)" with
both values rendered in decimal as %PRIu64 does. -/
def invalidLsnMsg (s e : Nat) : List Char :=
  ("Invalid LSN range: start_lsn (").data ++ (toString s).data ++
    (") >= stop_lsn (").data ++ (toString e).data ++ (")").data

/-- The message "Invalid timestamps: start_time (A) >= end_time (B)"
with both values rendered as %ld does. -/
def invalidTsMsg (s e : Int) : List Char :=
  ("Invalid timestamps: start_time (").data ++ (toString s).data ++
    (") >= end_time (").data ++ (toString e).data ++ (")").data

/-- The error and warning lists accumulated by validate_backup_metadata
from cli/cmd_list.c, in program order.  is_directory on the backup path
is the dirs oracle. -/
def validate_backup_metadata_issues (fs : FileSystem) (info : BackupInfo) :
    List (List Char) × List (List Char) :=
  let errs : List (List Char) := []
  let warns : List (List Char) := []
  let errs := if info.backup_id = [] then errs ++ [("Missing backup_id").data] else errs
  let errs := if info.backup_path = [] then errs ++ [("Missing backup_path").data] else errs
  let errs := if info.backup_path ≠ [] ∧ fs.dirs info.backup_path = false then
      errs ++ [("Backup path does not exist: ").data ++ info.backup_path] else errs
  let warns := if info.start_time = 0 then warns ++ [("Missing start_time").data] else warns
  let warns := if info.end_time = 0 ∧ info.status = .OK then
      warns ++ [("Missing end_time for completed backup").data] else warns
  let errs := if 0 < info.start_time ∧ 0 < info.end_time ∧ info.end_time ≤ info.start_time then
      errs ++ [invalidTsMsg info.start_time info.end_time] else errs
  let errs := if 0 < info.start_lsn ∧ 0 < info.stop_lsn ∧ info.stop_lsn ≤ info.start_lsn then
      errs ++ [invalidLsnMsg info.start_lsn info.stop_lsn] else errs
  let warns := if info.timeline = 0 then warns ++ [("Missing timeline ID").data] else warns
  let warns := if info.pg_version = 0 then warns ++ [("Missing PostgreSQL version").data] else warns
  (errs, warns)

/-- Embedding of validate_backup_metadata from cli/cmd_list.c: collect
the issues, then classify ERROR when any error exists, else WARNING when
any warning exists, else OK (the printing at the end is output only). -/
def validate_backup_metadata (fs : FileSystem) (info : BackupInfo) : ValidationResult :=
  ⟨if 0 < (validate_backup_metadata_issues fs info).1.length then .ERROR
    else if 0 < (validate_backup_metadata_issues fs info).2.length then .WARNING else .OK,
   (validate_backup_metadata_issues fs info).1,
   (validate_backup_metadata_issues fs info).2⟩

/-- Character class of isdigit in the C locale. -/
def isDigitChar (c : Char) : Bool :=
  decide (48 ≤ c.toNat ∧ c.toNat ≤ 57)

/-- Value of a decimal digit string, most significant digit first. -/
def decVal (l : List Char) : Nat :=
  l.foldl (fun a c => a * 10 + (c.toNat - 48)) 0

/-- Embedding of libc atoi: optional whitespace, optional sign, maximal
run of decimal digits (zero when there are none). -/
def atoiC (s : List Char) : Int :=
  let w := s.takeWhile isSpaceChar
  let r1 := s.drop w.length
  let neg : Bool := match r1 with
    | '-' :: _ => true
    | _ => false
  let sgnLen : Nat := match r1 with
    | '+' :: _ => 1
    | '-' :: _ => 1
    | _ => 0
  let d := (r1.drop sgnLen).takeWhile isDigitChar
  if neg then - (decVal d : Int) else (decVal d : Int)

/-- Value computed by strtoull(value, NULL, 10): like atoi but saturated
at ULLONG_MAX and negated modulo 2 ^ 64 for a minus sign. -/
def strtoull10val (s : List Char) : Nat :=
  let w := s.takeWhile isSpaceChar
  let r1 := s.drop w.length
  let neg : Bool := match r1 with
    | '-' :: _ => true
    | _ => false
  let sgnLen : Nat := match r1 with
    | '+' :: _ => 1
    | '-' :: _ => 1
    | _ => 0
  let d := (r1.drop sgnLen).takeWhile isDigitChar
  let v0 := decVal d
  let v1 := if C_ULONG_MAX < v0 then C_ULONG_MAX else v0
  if neg then (2 ^ 64 - v1) % 2 ^ 64 else v1

/-- Conversion of a C int value to uint32_t (two's complement wrap). -/
def c_uint32_of_int (i : Int) : Nat :=
  (i % (2 ^ 32 : Int)).toNat

/-- sscanf %d directive: whitespace, optional sign, at least one decimal
digit; returns the value and the unconsumed rest. -/
def scanDec (s : List Char) : Option (Int × List Char) :=
  let w := s.takeWhile isSpaceChar
  let r1 := s.drop w.length
  let neg : Bool := match r1 with
    | '-' :: _ => true
    | _ => false
  let sgnLen : Nat := match r1 with
    | '+' :: _ => 1
    | '-' :: _ => 1
    | _ => 0
  let r2 := r1.drop sgnLen
  let d := r2.takeWhile isDigitChar
  if d.isEmpty then none
  else some (if neg then - (decVal d : Int) else (decVal d : Int), r2.drop d.length)

/-- sscanf %X directive: strtoul base 16 on the rest of the input, a
match failure when nothing is consumed; the stored value is the
uint32_t truncation of the unsigned long conversion. -/
def scanHexU32 (s : List Char) : Option (Nat × List Char) :=
  let p := strtoul16 s
  if p.2 = 0 then none else some (p.1 % 2 ^ 32, s.drop p.2)

/-- sscanf literal character directive. -/
def scanLit (c : Char) (s : List Char) : Option (List Char) :=
  match s with
  | x :: r => if x == c then some r else none
  | [] => none

/-- sscanf "%X/%X" reading both uint32_t halves of an LSN. -/
def scanLsnPair (s : List Char) : Option (Nat × Nat) := do
  let (hi, r1) ← scanHexU32 s
  let r2 ← scanLit '/' r1
  let (lo, _) ← scanHexU32 r2
  pure (hi, lo)

/-- sscanf "%d-%d-%d %d:%d:%d", the timestamp grammar of the label and
control files; the blank in the format skips optional whitespace. -/
def scanTimestamp6 (s : List Char) : Option (Int × Int × Int × Int × Int × Int) := do
  let (y, r) ← scanDec s
  let r ← scanLit '-' r
  let (mo, r) ← scanDec r
  let r ← scanLit '-' r
  let (d, r) ← scanDec r
  let r := r.dropWhile isSpaceChar
  let (h, r) ← scanDec r
  let r ← scanLit ':' r
  let (mi, r) ← scanDec r
  let r ← scanLit ':' r
  let (sec, _) ← scanDec r
  pure (y, mo, d, h, mi, sec)

/-- First index at which the pattern occurs as a contiguous substring
(strstr). -/
def strstrIdx : List Char → List Char → Option Nat
  | hay, pat =>
    match hay with
    | [] => if pat.isEmpty then some 0 else none
    | _ :: t =>
      if pat.isPrefixOf hay then some 0
      else match strstrIdx t pat with
        | some i => some (i + 1)
        | none => none

/-- Index of the last occurrence of a character (strrchr). -/
def lastIdxOf (c : Char) : List Char → Option Nat
  | [] => none
  | x :: xs =>
    match lastIdxOf c xs with
    | some i => some (i + 1)
    | none => if x == c then some 0 else none

/-- Basename step shared by the scan functions: the text after the last
slash, or the whole path when there is none. -/
def baseNameAfterSlash (p : List Char) : List Char :=
  match lastIdxOf '/' p with
  | some i => p.drop (i + 1)
  | none => p

/-- Right trim of a control-file value: drop trailing newline, carriage
return, space and tab, but keep at least the first character when the
whole text is such junk (the C loop stops with end == start). -/
def ctlValueTrim (v : List Char) : List Char :=
  let r := (v.reverse.dropWhile (fun c => c == '\n' || c == '\r' || c == ' ' || c == '\t')).reverse
  if r.isEmpty then v.take 1 else r

/-- Embedding of parse_control_line from the pg_probackup adapter: the
line must contain an equals sign and start with the key; the value after
the equals sign is taken with whitespace skipped, unquoted from single
quotes when a closing quote exists, right-trimmed otherwise, and
truncated to the 256-byte value buffer.  Returns the empty list when the
line does not match, which callers treat as no value. -/
def parse_control_line (line : List Char) (key : List Char) : List Char :=
  match strchrIdx line '=' with
  | none => []
  | some eq =>
    if line.take key.length = key then
      let start := (line.drop (eq + 1)).dropWhile (fun c => c == ' ' || c == '\t')
      let v :=
        match start with
        | q :: rest =>
          if q == Char.ofNat 39 then
            match strchrIdx rest (Char.ofNat 39) with
            | some e => rest.take e
            | none => ctlValueTrim rest
          else ctlValueTrim start
        | [] => []
      v.take 255
    else []

/-- Embedding of parse_pg_probackup_timestamp: on a six-field scan the
libc mktime oracle is applied to the adjusted tm fields, otherwise 0. -/
def parse_pg_probackup_timestamp (fs : FileSystem) (s : List Char) : Int :=
  match scanTimestamp6 s with
  | some (y, mo, d, h, mi, sec) => fs.mkt (y - 1900) (mo - 1) d h mi sec
  | none => 0

/-- One line of the backup.control parse loop in
pg_probackup_read_metadata: the keys are tried in program order and the
first nonempty value wins for the line. -/
def pg_probackup_apply_line (fs : FileSystem) (info : BackupInfo) (line : List Char) : BackupInfo :=
  let v := parse_control_line line ("backup-mode").data
  if v ≠ [] then
    if v = ("FULL").data then { info with type := .FULL }
    else if v = ("PAGE").data then { info with type := .PAGE }
    else if v = ("DELTA").data then { info with type := .DELTA }
    else if v = ("PTRACK").data then { info with type := .PTRACK }
    else info
  else
    let v := parse_control_line line ("status").data
    if v ≠ [] then
      if v = ("OK").data then { info with status := .OK }
      else if v = ("RUNNING").data then { info with status := .RUNNING }
      else if v = ("CORRUPT").data then { info with status := .CORRUPT }
      else if v = ("ERROR").data then { info with status := .ERROR }
      else if v = ("ORPHAN").data then { info with status := .ORPHAN }
      else info
    else
      let v := parse_control_line line ("backup-id").data
      if v ≠ [] then { info with backup_id := v.take 63 }
      else
        let v := parse_control_line line ("start-lsn").data
        if v ≠ [] then
          match parse_lsn v with
          | some l => { info with start_lsn := l }
          | none => info
        else
          let v := parse_control_line line ("stop-lsn").data
          if v ≠ [] then
            match parse_lsn v with
            | some l => { info with stop_lsn := l }
            | none => info
          else
            let v := parse_control_line line ("start-time").data
            if v ≠ [] then { info with start_time := parse_pg_probackup_timestamp fs v }
            else
              let v := parse_control_line line ("end-time").data
              if v ≠ [] then { info with end_time := parse_pg_probackup_timestamp fs v }
              else
                let v1 := parse_control_line line ("timelineid").data
                let v := if v1 = [] then parse_control_line line ("timeline").data else v1
                if v ≠ [] then { info with timeline := c_uint32_of_int (atoiC v) }
                else
                  let v := parse_control_line line ("parent-backup-id").data
                  if v ≠ [] then { info with parent_backup_id := v.take 63 }
                  else
                    let v := parse_control_line line ("data-bytes").data
                    if v ≠ [] then { info with data_bytes := strtoull10val v }
                    else
                      let v := parse_control_line line ("wal-bytes").data
                      if v ≠ [] then { info with wal_bytes := strtoull10val v }
                      else
                        let v := parse_control_line line ("server-version").data
                        if v ≠ [] then { info with pg_version := c_uint32_of_int (atoiC v * 10000) }
                        else
                          let v := parse_control_line line ("program-version").data
                          if v ≠ [] then { info with tool_version := v.take 31 }
                          else info

/-- Embedding of pg_probackup_read_metadata: fails exactly when
backup.control cannot be opened; otherwise folds the key parser over the
lines and stamps tool and path.  The Bool is true for STATUS_OK. -/
def pg_probackup_read_metadata (fs : FileSystem) (backup_path : List Char) (info : BackupInfo) :
    Bool × BackupInfo :=
  match fs.files (path_join backup_path ("backup.control").data) with
  | none => (false, info)
  | some lines =>
    let info := lines.foldl (pg_probackup_apply_line fs) info
    (true, { info with tool := .PG_PROBACKUP, backup_path := backup_path.take 4095 })

/-- Embedding of pg_probackup_detect: the directory must exist and hold
both a backup.control file and a database subdirectory. -/
def pg_probackup_detect (fs : FileSystem) (path : List Char) : Bool :=
  if ¬ fs.dirs path then false
  else
    let has_control := file_exists fs (path_join path ("backup.control").data)
    let has_database := fs.dirs (path_join path ("database").data)
    has_control && has_database

/-- Embedding of pg_probackup_scan: a metadata read failure frees the
record and returns no record at all; otherwise the backup id falls back
to the directory basename and the instance name is cut from the path
component above the backup directory. -/
def pg_probackup_scan (fs : FileSystem) (backup_path : List Char) : Option BackupInfo :=
  let r := pg_probackup_read_metadata fs backup_path zeroBackupInfo
  if r.1 = false then none
  else
    let info := r.2
    let info :=
      if info.backup_id = [] then
        match lastIdxOf '/' backup_path with
        | some i => { info with backup_id := (backup_path.drop (i + 1)).take 63 }
        | none => info
      else info
    let info :=
      match lastIdxOf '/' backup_path with
      | some i =>
        if i ≠ 0 then
          match lastIdxOf '/' (backup_path.take i) with
          | some j =>
            let len := i - j - 1
            if 0 < len ∧ len < 64 then
              { info with instance_name := (backup_path.drop (j + 1)).take len }
            else info
          | none => info
        else info
      | none => info
    some info

/-- Embedding of is_tar_format: some directory entry starts with
base.tar (false when the directory cannot be opened). -/
def is_tar_format (fs : FileSystem) (path : List Char) : Bool :=
  match fs.entries path with
  | none => false
  | some es => es.any (fun e => e.take 8 == ("base.tar").data)

/-- Embedding of is_plain_format: base and global subdirectories plus a
backup_label or backup_manifest marker file. -/
def is_plain_format (fs : FileSystem) (path : List Char) : Bool :=
  let has_base := fs.dirs (path_join path ("base").data)
  let has_global := fs.dirs (path_join path ("global").data)
  let has_marker := file_exists fs (path_join path ("backup_label").data) ||
    file_exists fs (path_join path ("backup_manifest").data)
  has_base && has_global && has_marker

/-- Embedding of pg_basebackup_detect: requires a directory; skips the
directory when the path has a last slash at a positive index below
PATH_MAX and the parent prefix holds a backup.control file (the sibling
exclusion for pg_probackup data directories); otherwise tar or plain
format layout decides. -/
def pg_basebackup_detect (fs : FileSystem) (path : List Char) : Bool :=
  if ¬ fs.dirs path then false
  else
    let excluded :=
      match lastIdxOf '/' path with
      | some i =>
        if i ≠ 0 ∧ i < 4096 then
          file_exists fs (path_join (path.take i) ("backup.control").data)
        else false
      | none => false
    if excluded then false
    else is_tar_format fs path || is_plain_format fs path

/-- Label-file scan state of pg_basebackup_read_metadata. -/
structure LabelScanState where
  info : BackupInfo
  found_start_time : Bool
  is_incremental : Bool

/-- Skip the spaces and tabs after a fixed label-line marker. -/
def skipValueWs (l : List Char) : List Char :=
  l.dropWhile (fun c => c == ' ' || c == '\t')

/-- Cut a label value at the first newline (strchr plus NUL store). -/
def chopAtNewline (l : List Char) : List Char :=
  l.takeWhile (fun c => c != '\n')

/-- The "(file XXXX)" sub-field extraction of START WAL LOCATION. -/
def extract_wal_file_name (value : List Char) (info : BackupInfo) : BackupInfo :=
  match strstrIdx value (("(file ").data) with
  | none => info
  | some i =>
    let after := value.drop (i + 6)
    match strchrIdx after ')' with
    | none => info
    | some e =>
      if e < 64 then { info with wal_start_file := after.take e }
      else info

/-- printf %0Nd rendering of an int value (sign first, zeros pad the
magnitude up to the field width). -/
def decPadInt (w : Nat) (i : Int) : List Char :=
  let mag := Nat.toDigits 10 i.natAbs
  if i < 0 then '-' :: (List.replicate (w - 1 - mag.length) '0' ++ mag)
  else List.replicate (w - mag.length) '0' ++ mag

/-- The backup id "%04d%02d%02d-%02d%02d%02d" generated from the START
TIME fields. -/
def backupIdOfTm (y mo d h mi sec : Int) : List Char :=
  decPadInt 4 y ++ decPadInt 2 mo ++ decPadInt 2 d ++
    '-' :: (decPadInt 2 h ++ decPadInt 2 mi ++ decPadInt 2 sec)

/-- One line of the backup_label parse loop of
pg_basebackup_read_metadata, with the fixed prefixes tried in program
order. -/
def pg_basebackup_apply_label_line (fs : FileSystem) (st : LabelScanState) (line : List Char) :
    LabelScanState :=
  if line.take 19 = ("START WAL LOCATION:").data then
    let value := skipValueWs (line.drop 19)
    let st :=
      match scanLsnPair value with
      | some (hi, lo) =>
        { st with info := { st.info with start_lsn := Nat.lor (hi * 2 ^ 32 % 2 ^ 64) lo } }
      | none => st
    { st with info := extract_wal_file_name value st.info }
  else if line.take 20 = ("CHECKPOINT LOCATION:").data then
    let value := skipValueWs (line.drop 20)
    match scanLsnPair value with
    | some (hi, lo) =>
      { st with info := { st.info with stop_lsn := Nat.lor (hi * 2 ^ 32 % 2 ^ 64) lo } }
    | none => st
  else if line.take 14 = ("BACKUP METHOD:").data then
    { st with info :=
      { st.info with backup_method := (chopAtNewline (skipValueWs (line.drop 14))).take 31 } }
  else if line.take 12 = ("BACKUP FROM:").data then
    { st with info :=
      { st.info with backup_from := (chopAtNewline (skipValueWs (line.drop 12))).take 31 } }
  else if line.take 6 = ("LABEL:").data then
    { st with info :=
      { st.info with backup_label := (chopAtNewline (skipValueWs (line.drop 6))).take 127 } }
  else if line.take 11 = ("START TIME:").data then
    let value := skipValueWs (line.drop 11)
    match scanTimestamp6 value with
    | some (y, mo, d, h, mi, sec) =>
      { st with
        info := { st.info with
          start_time := fs.mkt (y - 1900) (mo - 1) d h mi sec,
          backup_id := (backupIdOfTm y mo d h mi sec).take 63 },
        found_start_time := true }
    | none => st
  else if line.take 15 = ("START TIMELINE:").data then
    { st with info :=
      { st.info with timeline := c_uint32_of_int (atoiC (skipValueWs (line.drop 15))) } }
  else if line.take 21 = ("INCREMENTAL FROM LSN:").data then
    { st with is_incremental := true }
  else st

/-- The backup_label line loop plus its epilogue: without a parsed START
TIME the read reports STATUS_ERROR (fields already parsed stay in the
record); an INCREMENTAL FROM LSN marker reclassifies the backup kind. -/
def pg_basebackup_scan_label (fs : FileSystem) (lines : List (List Char)) (info : BackupInfo) :
    Bool × BackupInfo :=
  let st := lines.foldl (pg_basebackup_apply_label_line fs) ⟨info, false, false⟩
  if ¬ st.found_start_time then (false, st.info)
  else if st.is_incremental then (true, { st.info with type := .INCREMENTAL })
  else (true, st.info)

/-- Manifest scan state of parse_backup_manifest. -/
structure ManifestScanState where
  found_timeline : Bool
  found_lsn : Bool
  info : BackupInfo

/-- One line of the minimal JSON scan of parse_backup_manifest: the
Timeline value after a colon, and the Start-LSN value inside the third
quote region after the key match. -/
def parse_backup_manifest_line (st : ManifestScanState) (line : List Char) : ManifestScanState :=
  let st :=
    if ¬ st.found_timeline then
      match strstrIdx line (("\"Timeline\"").data) with
      | some i =>
        let p := line.drop i
        match strchrIdx p ':' with
        | some j =>
          { st with
            info := { st.info with timeline := c_uint32_of_int (atoiC (p.drop (j + 1))) },
            found_timeline := true }
        | none => st
      | none => st
    else st
  if ¬ st.found_lsn then
    match strstrIdx line (("\"Start-LSN\"").data) with
    | some i =>
      let p := line.drop i
      match strchrIdx p '"' with
      | none => st
      | some q1 =>
        let p1 := p.drop (q1 + 1)
        match strchrIdx p1 '"' with
        | none => st
        | some q2 =>
          let p2 := p1.drop (q2 + 1)
          match strchrIdx p2 '"' with
          | none => st
          | some q3 =>
            let p3 := p2.drop (q3 + 1)
            match scanLsnPair p3 with
            | some (hi, lo) =>
              { st with
                info := { st.info with start_lsn := Nat.lor (hi * 2 ^ 32 % 2 ^ 64) lo },
                found_lsn := true }
            | none => st
    | none => st
  else st

/-- Embedding of parse_backup_manifest: fails when the manifest cannot
be opened or neither Timeline nor Start-LSN was found; on success the
backup id and start time come from the current-time oracle. -/
def parse_backup_manifest (fs : FileSystem) (manifest_path : List Char) (info : BackupInfo) :
    Bool × BackupInfo :=
  match fs.files manifest_path with
  | none => (false, info)
  | some lines =>
    let st := lines.foldl parse_backup_manifest_line ⟨false, false, info⟩
    if ¬ st.found_timeline ∧ ¬ st.found_lsn then (false, st.info)
    else (true, { st.info with backup_id := fs.nowId.take 63, start_time := fs.nowTime })

/-- Embedding of pg_basebackup_read_metadata: a readable backup_label
file is parsed directly; otherwise the first base.tar entry is streamed
through the external tar collaborator; otherwise the backup_manifest
fallback decides.  The Bool is true for STATUS_OK. -/
def pg_basebackup_read_metadata (fs : FileSystem) (backup_path : List Char) (info : BackupInfo) :
    Bool × BackupInfo :=
  match fs.files (path_join backup_path ("backup_label").data) with
  | some lines => pg_basebackup_scan_label fs lines info
  | none =>
    let tarEntry :=
      match fs.entries backup_path with
      | none => none
      | some es => es.find? (fun e => e.take 8 == ("base.tar").data)
    match tarEntry with
    | some e =>
      pg_basebackup_scan_label fs (fs.tar (path_join backup_path e) (("backup_label").data)) info
    | none =>
      parse_backup_manifest fs (path_join backup_path ("backup_manifest").data) info

/-- The record as initialized by pg_basebackup_scan before the metadata
read: basename as provisional id, localhost node, full pg_basebackup
backup assumed OK. -/
def pg_basebackup_init_info (backup_path : List Char) : BackupInfo :=
  { zeroBackupInfo with
    backup_id := (baseNameAfterSlash backup_path).take 63,
    backup_path := backup_path.take 4095,
    node_name := ("localhost").data,
    tool := .PG_BASEBACKUP,
    type := .FULL,
    status := .OK }

/-- Embedding of pg_basebackup_scan: always returns a record; a metadata
read failure only marks the record status ERROR.  The later steps fill
sizes, the directory mtime as end time, and PG_VERSION from the plain
file or the tar archive. -/
def pg_basebackup_scan (fs : FileSystem) (backup_path : List Char) : BackupInfo :=
  let r := pg_basebackup_read_metadata fs backup_path (pg_basebackup_init_info backup_path)
  let info := if r.1 then r.2 else { r.2 with status := .ERROR }
  let info := { info with data_bytes := fs.dirSizeOf backup_path }
  let wal_path := path_join backup_path ("pg_wal").data
  let info :=
    if fs.dirs wal_path then { info with wal_bytes := fs.dirSizeOf wal_path }
    else
      match fs.entries backup_path with
      | none => info
      | some es =>
        match es.findSome? (fun e =>
            if e.take 10 == ("pg_wal.tar").data then fs.sizeOf (path_join backup_path e)
            else none) with
        | some sz => { info with wal_bytes := sz }
        | none => info
  let info :=
    match fs.mtimeOf backup_path with
    | some t => { info with end_time := t }
    | none => info
  let info :=
    match fs.files (path_join backup_path ("PG_VERSION").data) with
    | some (l :: _) => { info with pg_version := c_uint32_of_int (atoiC (l.take 31) * 10000) }
    | some [] => info
    | none =>
      match fs.entries backup_path with
      | none => info
      | some es =>
        match es.find? (fun e => e.take 8 == ("base.tar").data) with
        | some e =>
          match fs.tar (path_join backup_path e) (("PG_VERSION").data) with
          | l :: _ => { info with pg_version := c_uint32_of_int (atoiC (l.take 31) * 10000) }
          | [] => info
        | none => info
  info

/-! ### Specification-side definitions used by the theorems -/

/-- A run of isspace characters. -/
def SpaceRun (w : List Char) : Prop :=
  ∀ c ∈ w, isSpaceChar c = true

/-- An optional single sign character. -/
def SignShape (sg : List Char) : Prop :=
  sg = [] ∨ sg = ['+'] ∨ sg = ['-']

/-- An optional hexadecimal 0x / 0X prefix. -/
def PreShape (pre : List Char) : Prop :=
  pre = [] ∨ pre = ['0', 'x'] ∨ pre = ['0', 'X']

/-- A nonempty run of hexadecimal digits. -/
def HexRun (d : List Char) : Prop :=
  d ≠ [] ∧ ∀ c ∈ d, isHexDigitChar c = true

/-- The unsigned long value strtoul gives a sign and a digit run:
saturation at ULONG_MAX, then two's complement negation for a minus. -/
def halfValue (sg d : List Char) : Nat :=
  let v1 := if C_ULONG_MAX < hexVal d then C_ULONG_MAX else hexVal d
  if sg = ['-'] then (2 ^ 64 - v1) % 2 ^ 64 else v1

/-- Grammar of one LSN half as parse_lsn accepts it: either empty (read
as zero) or whitespace, an optional sign, an optional 0x prefix and at
least one hex digit, with the strtoul value. -/
def HalfNum (u : List Char) (v : Nat) : Prop :=
  (u = [] ∧ v = 0) ∨
  ∃ w sg pre d, u = w ++ sg ++ pre ++ d ∧ SpaceRun w ∧ SignShape sg ∧ PreShape pre ∧
    HexRun d ∧ v = halfValue sg d

/-- The literal HEX/HEX shape of the specification: one or more hex
digits, a slash, one or more hex digits, nothing else. -/
def isHexSlashHex (s : List Char) : Bool :=
  let a := s.takeWhile isHexDigitChar
  match s.drop a.length with
  | '/' :: b => !a.isEmpty && !b.isEmpty && b.all isHexDigitChar
  | _ => false

/-- Linearization of a segment identifier: seg-id wraps into log-id at
2 ^ 32 (the loop order of check_wal_availability). -/
def segKey (s : WALSegmentName) : Nat :=
  s.log_id * 2 ^ 32 + s.seg_id

/-- The segment of a linearized position on a timeline. -/
def keyToSeg (tl k : Nat) : WALSegmentName :=
  ⟨tl, k / 2 ^ 32, k % 2 ^ 32⟩

/-- All segments on one timeline from linear position a to b inclusive
(empty when a exceeds b). -/
def segRange (tl a b : Nat) : List WALSegmentName :=
  (List.range (b + 1 - a)).map (fun i => keyToSeg tl (a + i))

/-- The segments a backup needs: from the segment of its start LSN to
the segment of its stop LSN inclusive, at the default 16 MiB size. -/
def expected_segments (backup : BackupInfo) : List WALSegmentName :=
  segRange backup.timeline
    (segKey (lsn_to_seg backup.start_lsn backup.timeline 0x1000000))
    (segKey (lsn_to_seg backup.stop_lsn backup.timeline 0x1000000))

/-- The expected segments absent from a WAL inventory. -/
def missing_segments (backup : BackupInfo) (wal : List WALSegmentName) : List WALSegmentName :=
  (expected_segments backup).filter (fun s => !(segment_exists_in_archive s wal))

/-- An inert oracle bundle: everything empty or absent. -/
def trivialFS : FileSystem :=
  { dirs := fun _ => true, files := fun _ => none, entries := fun _ => none,
    tar := fun _ _ => [], mtimeOf := fun _ => none, sizeOf := fun _ => none,
    dirSizeOf := fun _ => 0, mkt := fun _ _ _ _ _ _ => 0, nowId := [], nowTime := 0 }

/-- An oracle bundle whose paths do not exist at all. -/
def emptyFS : FileSystem :=
  { dirs := fun _ => false, files := fun _ => none, entries := fun _ => none,
    tar := fun _ _ => [], mtimeOf := fun _ => none, sizeOf := fun _ => none,
    dirSizeOf := fun _ => 0, mkt := fun _ _ _ _ _ _ => 0, nowId := [], nowTime := 0 }

/-- A pg_probackup backup directory whose backup.control is readable but
holds no recognizable key at all. -/
def cexPath : List Char := ("/backups/inst1/BAD1").data

/-- Filesystem for cexPath: the directory and its database subdirectory
exist and backup.control reads as one junk line. -/
def probackupBadCtlFS : FileSystem :=
  { dirs := fun p => p == cexPath || p == ("/backups/inst1/BAD1/database").data,
    files := fun p =>
      if p == ("/backups/inst1/BAD1/backup.control").data then some [("garbage").data] else none,
    entries := fun _ => none, tar := fun _ _ => [], mtimeOf := fun _ => none,
    sizeOf := fun _ => none, dirSizeOf := fun _ => 0, mkt := fun _ _ _ _ _ _ => 0,
    nowId := [], nowTime := 0 }

/-- A pg_probackup backup living directly at the filesystem root: the
root holds backup.control and the database subdirectory, and the data
subdirectory itself carries plain pg_basebackup markers. -/
def rootProbackupFS : FileSystem :=
  { dirs := fun p => p == ("/").data || p == ("/database").data ||
      p == ("/database/base").data || p == ("/database/global").data,
    files := fun p =>
      if p == ("/backup.control").data || p == ("/database/backup_label").data then some []
      else none,
    entries := fun _ => none, tar := fun _ _ => [], mtimeOf := fun _ => none,
    sizeOf := fun _ => none, dirSizeOf := fun _ => 0, mkt := fun _ _ _ _ _ _ => 0,
    nowId := [], nowTime := 0 }

/-- A concrete backup record with complete metadata and an inverted
nonzero LSN range. -/
def lsnRangeCexInfo : BackupInfo :=
  { zeroBackupInfo with
    backup_id := "B".data
    backup_path := "/p".data
    start_time := 1
    end_time := 2
    timeline := 1
    pg_version := 1
    start_lsn := 5
    stop_lsn := 3 }

/-! ### Helper lemmas -/

theorem space_char_cases {c : Char} (h : isSpaceChar c = true) :
    c = ' ' ∨ c = '\t' ∨ c = '\n' ∨ c = '\x0b' ∨ c = '\x0c' ∨ c = '\r' := by
  simp only [isSpaceChar, Bool.or_eq_true, beq_iff_eq] at h
  tauto

theorem hex_char_facts {c : Char} (h : isHexDigitChar c = true) :
    c ≠ '+' ∧ c ≠ '-' ∧ c ≠ '/' ∧ c ≠ 'x' ∧ c ≠ 'X' ∧ isSpaceChar c = false := by
  refine ⟨?_, ?_, ?_, ?_, ?_, ?_⟩
  · rintro rfl; revert h; decide
  · rintro rfl; revert h; decide
  · rintro rfl; revert h; decide
  · rintro rfl; revert h; decide
  · rintro rfl; revert h; decide
  · by_contra hs
    rcases space_char_cases (Bool.of_not_eq_false hs) with rfl | rfl | rfl | rfl | rfl | rfl <;>
      revert h <;> decide

theorem takeWhile_append_of_all {α : Type} (p : α → Bool) :
    ∀ (w r : List α), (∀ c ∈ w, p c = true) → (w ++ r).takeWhile p = w ++ r.takeWhile p := by
  intro w
  induction w with
  | nil => intro r _; rfl
  | cons c t ih =>
    intro r h
    have hc : p c = true := h c (List.mem_cons_self c t)
    simp only [List.cons_append, List.takeWhile_cons, hc, if_true]
    rw [ih r (fun x hx => h x (List.mem_cons_of_mem c hx))]

theorem takeWhile_nil_of_head {α : Type} (p : α → Bool) (c : α) (l : List α) (h : p c = false) :
    (c :: l).takeWhile p = [] := by
  simp [List.takeWhile_cons, h]

theorem prefix_drop_decomp {α : Type} {w s : List α} (h : w <+: s) :
    s = w ++ s.drop w.length := by
  obtain ⟨t, rfl⟩ := h
  rw [List.drop_left]

theorem takeWhile_self_decomp {α : Type} (p : α → Bool) (s : List α) :
    s = s.takeWhile p ++ s.drop (s.takeWhile p).length :=
  prefix_drop_decomp (List.takeWhile_prefix p)

theorem hexDigitVal_lt (c : Char) : hexDigitVal c < 16 := by
  unfold hexDigitVal
  split
  · omega
  split
  · omega
  split
  · omega
  · omega

theorem hexVal_foldl (l : List Char) :
    ∀ a, l.foldl (fun x c => x * 16 + hexDigitVal c) a = a * 16 ^ l.length + hexVal l := by
  induction l with
  | nil => intro a; simp [hexVal]
  | cons c t ih =>
    intro a
    have h0 : hexVal (c :: t) = hexDigitVal c * 16 ^ t.length + hexVal t := by
      show List.foldl _ (0 * 16 + hexDigitVal c) t = _
      rw [ih]
      ring
    show List.foldl _ (a * 16 + hexDigitVal c) t = _
    rw [ih, h0, List.length_cons]
    ring

theorem hexVal_cons (c : Char) (t : List Char) :
    hexVal (c :: t) = hexDigitVal c * 16 ^ t.length + hexVal t := by
  show List.foldl _ (0 * 16 + hexDigitVal c) t = _
  rw [hexVal_foldl]
  ring

theorem hexVal_lt (l : List Char) : hexVal l < 16 ^ l.length := by
  induction l with
  | nil => simp [hexVal]
  | cons c t ih =>
    rw [hexVal_cons, List.length_cons, pow_succ]
    have := hexDigitVal_lt c
    nlinarith

theorem lor_mul_pow_add : ∀ (n k x : Nat), x < 2 ^ n → Nat.lor (k * 2 ^ n) x = k * 2 ^ n + x := by
  intro n
  induction n with
  | zero =>
    intro k x hx
    interval_cases x
    show k * 2 ^ 0 ||| 0 = k * 2 ^ 0 + 0
    simp
  | succ n ih =>
    intro k x hx
    have hd : Nat.bit (Nat.bodd x) (Nat.div2 x) = x := Nat.bit_decomp x
    have h1 : k * 2 ^ (n + 1) = Nat.bit false (k * 2 ^ n) := by
      simp [Nat.bit]
      ring
    have hlt : Nat.div2 x < 2 ^ n := by
      rw [Nat.div2_val]
      rw [pow_succ] at hx
      omega
    calc Nat.lor (k * 2 ^ (n + 1)) x
      = Nat.lor (Nat.bit false (k * 2 ^ n)) (Nat.bit (Nat.bodd x) (Nat.div2 x)) := by rw [hd, h1]
    _ = Nat.bit (false || Nat.bodd x) (Nat.lor (k * 2 ^ n) (Nat.div2 x)) := Nat.lor_bit false _ _ _
    _ = Nat.bit (Nat.bodd x) (k * 2 ^ n + Nat.div2 x) := by rw [Bool.false_or, ih k _ hlt]
    _ = k * 2 ^ (n + 1) + x := by
        cases hb : Nat.bodd x <;>
        · have hx2 : Nat.bit (Nat.bodd x) (Nat.div2 x) = x := hd
          rw [hb] at hx2
          simp only [Nat.bit, cond] at hx2 ⊢
          rw [Nat.div2_val] at hx2 ⊢
          ring_nf
          omega

/-! ### C2: no-LSN backups give one warning -/

/-- C2: for every backup record with start_lsn = 0 and stop_lsn = 0,
check_wal_availability returns status WARNING with exactly the one
"no LSN information" warning and no errors. -/
theorem check_wal_availability_no_lsn (backup : BackupInfo) (wal : List WALSegmentName)
    (h1 : backup.start_lsn = 0) (h2 : backup.stop_lsn = 0) :
    check_wal_availability backup wal = some ⟨.WARNING, [], [noLsnMsg]⟩ := by
  unfold check_wal_availability
  rw [if_pos ⟨h1, h2⟩]

theorem check_wal_availability_no_lsn_witness :
    check_wal_availability zeroBackupInfo [] = some ⟨.WARNING, [], [noLsnMsg]⟩ :=
  check_wal_availability_no_lsn zeroBackupInfo [] rfl rfl

/-! ### C10: validation status classification invariant -/

/-- C10: every validate_backup_metadata result satisfies the
classification invariant: status ERROR iff the error count is positive,
WARNING iff there are no errors and some warning, OK iff both counts are
zero. -/
theorem validate_backup_metadata_classification (fs : FileSystem) (info : BackupInfo) :
    ((validate_backup_metadata fs info).status = .ERROR ↔
      0 < (validate_backup_metadata fs info).errors.length) ∧
    ((validate_backup_metadata fs info).status = .WARNING ↔
      ((validate_backup_metadata fs info).errors.length = 0 ∧
        0 < (validate_backup_metadata fs info).warnings.length)) ∧
    ((validate_backup_metadata fs info).status = .OK ↔
      ((validate_backup_metadata fs info).errors.length = 0 ∧
        (validate_backup_metadata fs info).warnings.length = 0)) := by
  unfold validate_backup_metadata
  dsimp only
  by_cases h1 : 0 < (validate_backup_metadata_issues fs info).1.length
  · rw [if_pos h1]
    refine ⟨iff_of_true (by simp) h1, iff_of_false (by simp) ?_, iff_of_false (by simp) ?_⟩
    · rintro ⟨h0, -⟩; omega
    · rintro ⟨h0, -⟩; omega
  · rw [if_neg h1]
    by_cases h2 : 0 < (validate_backup_metadata_issues fs info).2.length
    · rw [if_pos h2]
      refine ⟨iff_of_false (by simp) h1, iff_of_true (by simp) ⟨by omega, h2⟩,
        iff_of_false (by simp) ?_⟩
      rintro ⟨-, h0⟩; omega
    · rw [if_neg h2]
      exact ⟨iff_of_false (by simp) h1, iff_of_false (by simp) (by rintro ⟨-, hw2⟩; omega),
        iff_of_true (by simp) ⟨by omega, by omega⟩⟩

/-! ### strtoul16 stage lemmas -/

theorem space_spec (w sg pre d rest : List Char) (hw : SpaceRun w) (hsg : SignShape sg)
    (hpre : PreShape pre) (hd : HexRun d) :
    (w ++ (sg ++ (pre ++ (d ++ rest)))).takeWhile isSpaceChar = w := by
  rw [takeWhile_append_of_all isSpaceChar w (sg ++ (pre ++ (d ++ rest))) hw]
  suffices h : (sg ++ (pre ++ (d ++ rest))).takeWhile isSpaceChar = [] by
    rw [h, List.append_nil]
  obtain ⟨c0, d', rfl⟩ := List.exists_cons_of_ne_nil hd.1
  have hc0 := hd.2 c0 (List.mem_cons_self _ _)
  have hc0s := (hex_char_facts hc0).2.2.2.2.2
  rcases hsg with rfl | rfl | rfl
  · rcases hpre with rfl | rfl | rfl
    · exact takeWhile_nil_of_head isSpaceChar c0 (d' ++ rest) hc0s
    · exact takeWhile_nil_of_head isSpaceChar '0' ('x' :: ((c0 :: d') ++ rest)) (by decide)
    · exact takeWhile_nil_of_head isSpaceChar '0' ('X' :: ((c0 :: d') ++ rest)) (by decide)
  · exact takeWhile_nil_of_head isSpaceChar '+' (pre ++ ((c0 :: d') ++ rest)) (by decide)
  · exact takeWhile_nil_of_head isSpaceChar '-' (pre ++ ((c0 :: d') ++ rest)) (by decide)

theorem sign_spec (sg pre d rest : List Char) (hsg : SignShape sg) (hpre : PreShape pre)
    (hd : HexRun d) :
    (if (sg ++ (pre ++ (d ++ rest))).take 1 = ['+'] ∨ (sg ++ (pre ++ (d ++ rest))).take 1 = ['-']
      then 1 else 0) = sg.length ∧
    (((sg ++ (pre ++ (d ++ rest))).take 1 = ['-']) ↔ sg = ['-']) := by
  obtain ⟨c0, d', rfl⟩ := List.exists_cons_of_ne_nil hd.1
  have hc0 := hd.2 c0 (List.mem_cons_self _ _)
  obtain ⟨hplus, hminus, -, -, -, -⟩ := hex_char_facts hc0
  rcases hsg with rfl | rfl | rfl
  · rcases hpre with rfl | rfl | rfl
    · have e : (([] : List Char) ++ ([] ++ ((c0 :: d') ++ rest))).take 1 = [c0] := rfl
      rw [e]
      constructor
      · rw [if_neg (by
          rintro (h | h) <;> simp only [List.cons.injEq, and_true] at h
          · exact hplus h
          · exact hminus h)]
        rfl
      · refine iff_of_false ?_ (by decide)
        intro h
        simp only [List.cons.injEq, and_true] at h
        exact hminus h
    · have e : (([] : List Char) ++ (['0', 'x'] ++ ((c0 :: d') ++ rest))).take 1 = ['0'] := rfl
      rw [e, if_neg (by decide)]
      exact ⟨rfl, iff_of_false (by decide) (by decide)⟩
    · have e : (([] : List Char) ++ (['0', 'X'] ++ ((c0 :: d') ++ rest))).take 1 = ['0'] := rfl
      rw [e, if_neg (by decide)]
      exact ⟨rfl, iff_of_false (by decide) (by decide)⟩
  · have e : ((['+'] : List Char) ++ (pre ++ ((c0 :: d') ++ rest))).take 1 = ['+'] := rfl
    rw [e, if_pos (Or.inl rfl)]
    exact ⟨rfl, iff_of_false (by decide) (by decide)⟩
  · have e : ((['-'] : List Char) ++ (pre ++ ((c0 :: d') ++ rest))).take 1 = ['-'] := rfl
    rw [e, if_pos (Or.inr rfl)]
    exact ⟨rfl, Iff.rfl⟩

theorem pre_digits_spec (pre d rest : List Char) (hpre : PreShape pre) (hd : HexRun d)
    (hrest : rest = [] ∨ ∃ t, rest = '/' :: t) :
    (if ((pre ++ (d ++ rest)).take 2 = ['0', 'x'] ∨ (pre ++ (d ++ rest)).take 2 = ['0', 'X']) ∧
        headIsHex ((pre ++ (d ++ rest)).drop 2) then 2 else 0) = pre.length ∧
    ((pre ++ (d ++ rest)).drop pre.length).takeWhile isHexDigitChar = d := by
  obtain ⟨c0, d', rfl⟩ := List.exists_cons_of_ne_nil hd.1
  have hc0 := hd.2 c0 (List.mem_cons_self _ _)
  have htwrest : rest.takeWhile isHexDigitChar = [] := by
    rcases hrest with rfl | ⟨t, rfl⟩
    · rfl
    · exact takeWhile_nil_of_head _ _ _ (by decide)
  have htwd : ((c0 :: d') ++ rest).takeWhile isHexDigitChar = c0 :: d' := by
    rw [takeWhile_append_of_all _ _ _ hd.2, htwrest, List.append_nil]
  rcases hpre with rfl | rfl | rfl
  · refine ⟨?_, htwd⟩
    have e : (([] : List Char) ++ ((c0 :: d') ++ rest)).take 2 = c0 :: (d' ++ rest).take 1 := rfl
    have hneg : ¬ (((([] : List Char) ++ ((c0 :: d') ++ rest)).take 2 = ['0', 'x'] ∨
        (([] : List Char) ++ ((c0 :: d') ++ rest)).take 2 = ['0', 'X']) ∧
        headIsHex ((([] : List Char) ++ ((c0 :: d') ++ rest)).drop 2) = true) := by
      rintro ⟨hor, -⟩
      have h2 : (d' ++ rest).take 1 = ['x'] ∨ (d' ++ rest).take 1 = ['X'] := by
        rcases hor with h2 | h2 <;> rw [e] at h2 <;> simp only [List.cons.injEq] at h2
        · exact Or.inl h2.2
        · exact Or.inr h2.2
      cases d' with
      | nil =>
        rcases hrest with rfl | ⟨t, rfl⟩
        · rcases h2 with h2 | h2 <;> exact absurd h2 (by decide)
        · have e2 : (([] : List Char) ++ '/' :: t).take 1 = ['/'] := rfl
          rw [e2] at h2
          rcases h2 with h2 | h2 <;> exact absurd h2 (by decide)
      | cons c1 d2 =>
        have e1 : ((c1 :: d2) ++ rest).take 1 = [c1] := rfl
        rw [e1] at h2
        have hf := hex_char_facts (hd.2 c1 (by simp))
        rcases h2 with h2 | h2 <;> simp only [List.cons.injEq, and_true] at h2
        · exact hf.2.2.2.1 h2
        · exact hf.2.2.2.2.1 h2
    rw [if_neg hneg]
    rfl
  · have hhd : headIsHex ((['0', 'x'] ++ ((c0 :: d') ++ rest)).drop 2) = isHexDigitChar c0 := rfl
    have hcond : ((['0', 'x'] ++ ((c0 :: d') ++ rest)).take 2 = ['0', 'x'] ∨
        (['0', 'x'] ++ ((c0 :: d') ++ rest)).take 2 = ['0', 'X']) ∧
        headIsHex ((['0', 'x'] ++ ((c0 :: d') ++ rest)).drop 2) := ⟨Or.inl rfl, hhd ▸ hc0⟩
    exact ⟨by rw [if_pos hcond]; rfl, htwd⟩
  · have hhd : headIsHex ((['0', 'X'] ++ ((c0 :: d') ++ rest)).drop 2) = isHexDigitChar c0 := rfl
    have hcond : ((['0', 'X'] ++ ((c0 :: d') ++ rest)).take 2 = ['0', 'x'] ∨
        (['0', 'X'] ++ ((c0 :: d') ++ rest)).take 2 = ['0', 'X']) ∧
        headIsHex ((['0', 'X'] ++ ((c0 :: d') ++ rest)).drop 2) := ⟨Or.inr rfl, hhd ▸ hc0⟩
    exact ⟨by rw [if_pos hcond]; rfl, htwd⟩

theorem strtoul16_full_run (w sg pre d rest : List Char) (hw : SpaceRun w) (hsg : SignShape sg)
    (hpre : PreShape pre) (hd : HexRun d) (hrest : rest = [] ∨ ∃ t, rest = '/' :: t) :
    strtoul16 (w ++ (sg ++ (pre ++ (d ++ rest)))) =
      (halfValue sg d, w.length + sg.length + pre.length + d.length) := by
  have hsp := space_spec w sg pre d rest hw hsg hpre hd
  have hsgn := sign_spec sg pre d rest hsg hpre hd
  have hpd := pre_digits_spec pre d rest hpre hd hrest
  have htwd : (d ++ rest).takeWhile isHexDigitChar = d := by
    have h := hpd.2
    rwa [List.drop_left] at h
  have hde : d.isEmpty = false := by
    cases d with
    | nil => exact absurd rfl hd.1
    | cons a b => rfl
  simp only [strtoul16]
  rw [hsp, List.drop_left, hsgn.1]
  simp only [hsgn.2]
  rw [List.drop_left, hpd.1, List.drop_left, htwd]
  simp only [hde, Bool.false_eq_true, if_false]
  unfold halfValue
  by_cases hneg : sg = ['-']
  · simp [hneg]
  · simp [hneg]

theorem strtoul16_pure_hex (d : List Char) (hne : d ≠ [])
    (hhex : ∀ c ∈ d, isHexDigitChar c = true) (hle : hexVal d ≤ C_ULONG_MAX) :
    strtoul16 d = (hexVal d, d.length) := by
  have h := strtoul16_full_run [] [] [] d [] (by intro c hc; simp at hc) (Or.inl rfl)
    (Or.inl rfl) ⟨hne, hhex⟩ (Or.inl rfl)
  simp only [List.nil_append, List.append_nil, List.length_nil] at h
  rw [h]
  unfold halfValue
  simp [Nat.not_lt.mpr hle]

/-! ### strchr and drop lemmas -/

theorem strchrIdx_append (u : List Char) (c : Char) (l : List Char) (h : c ∉ u) :
    strchrIdx (u ++ c :: l) c = some u.length := by
  induction u with
  | nil => simp [strchrIdx]
  | cons x t ih =>
    have hxc : (x == c) = false := by
      simp only [beq_eq_false_iff_ne, ne_eq]
      intro e
      exact h (e ▸ List.mem_cons_self x t)
    rw [List.cons_append]
    show (if x == c then some 0 else (strchrIdx (t ++ c :: l) c).map (· + 1)) =
      some (x :: t).length
    simp only [hxc, Bool.false_eq_true, if_false]
    rw [ih (fun hm => h (List.mem_cons_of_mem x hm))]
    rfl

theorem drop_append_cons (a : List Char) (c : Char) (b : List Char) :
    (a ++ c :: b).drop (a.length + 1) = b := by
  induction a with
  | nil => rfl
  | cons x t _ => simp

/-! ### C9: WAL filename parser accepts exactly 24 hex characters -/

/-- C9: parse_wal_filename succeeds exactly on strings of 24 hexadecimal
characters, splitting them into the timeline, log-id and segment-id
fields of 8 characters each; everything else gives no match. -/
theorem parse_wal_filename_spec (s : List Char) :
    parse_wal_filename s =
      (if s.length = 24 ∧ s.all isHexDigitChar then
        some ⟨hexVal (s.take 8), hexVal ((s.drop 8).take 8), hexVal (s.drop 16)⟩
      else none) := by
  by_cases h24 : s.length = 24
  · by_cases hhex : s.all isHexDigitChar = true
    · have hmemall : ∀ c ∈ s, isHexDigitChar c = true := fun c hc => List.all_eq_true.mp hhex c hc
      have ht8 : (s.take 8).length = 8 := by rw [List.length_take]; omega
      have hl8 : ((s.drop 8).take 8).length = 8 := by
        rw [List.length_take, List.length_drop]; omega
      have hs8 : ((s.drop 16).take 8).length = 8 := by
        rw [List.length_take, List.length_drop]; omega
      have hts : ∀ c ∈ s.take 8, isHexDigitChar c = true :=
        fun c hc => hmemall c (List.take_subset _ _ hc)
      have hls : ∀ c ∈ (s.drop 8).take 8, isHexDigitChar c = true :=
        fun c hc => hmemall c (List.drop_subset _ _ (List.take_subset _ _ hc))
      have hss : ∀ c ∈ (s.drop 16).take 8, isHexDigitChar c = true :=
        fun c hc => hmemall c (List.drop_subset _ _ (List.take_subset _ _ hc))
      have hb : ∀ (l : List Char), l.length = 8 → hexVal l ≤ C_ULONG_MAX ∧ hexVal l < 2 ^ 32 := by
        intro l hl
        have hv := hexVal_lt l
        rw [hl] at hv
        unfold C_ULONG_MAX
        norm_num at hv ⊢
        omega
      have hne1 : s.take 8 ≠ [] := by intro h; rw [h] at ht8; simp at ht8
      have hne2 : (s.drop 8).take 8 ≠ [] := by intro h; rw [h] at hl8; simp at hl8
      have hne3 : (s.drop 16).take 8 ≠ [] := by intro h; rw [h] at hs8; simp at hs8
      simp only [parse_wal_filename]
      rw [if_neg (by omega)]
      rw [if_neg (by simp [hhex])]
      rw [strtoul16_pure_hex (s.take 8) hne1 hts (hb _ ht8).1,
        strtoul16_pure_hex ((s.drop 8).take 8) hne2 hls (hb _ hl8).1,
        strtoul16_pure_hex ((s.drop 16).take 8) hne3 hss (hb _ hs8).1]
      simp only [ne_eq, not_true_eq_false, if_false]
      rw [if_pos ⟨h24, hhex⟩]
      have hd16 : (s.drop 16).take 8 = s.drop 16 :=
        List.take_of_length_le (by rw [List.length_drop]; omega)
      rw [Nat.mod_eq_of_lt (hb _ ht8).2, Nat.mod_eq_of_lt (hb _ hl8).2,
        Nat.mod_eq_of_lt (hb _ hs8).2, hd16]
    · simp only [parse_wal_filename]
      by_cases h0 : s.length = 24
      · rw [if_neg (by omega), if_pos (by simpa using hhex), if_neg (by tauto)]
      · omega
  · simp only [parse_wal_filename]
    rw [if_pos h24, if_neg (by tauto)]

/-! ### Hex printer lemmas and C8 -/

theorem hexDigitVal_hexDigitUpper (m : Nat) (h : m < 16) : hexDigitVal (hexDigitUpper m) = m := by
  interval_cases m <;> decide

theorem toHexUpperCore_val : ∀ (fuel n : Nat) (acc : List Char), n < 16 ^ fuel →
    hexVal (toHexUpperCore fuel n acc) = n * 16 ^ acc.length + hexVal acc := by
  intro fuel
  induction fuel with
  | zero =>
    intro n acc h
    have h0 : n = 0 := by simpa using h
    subst h0
    simp [toHexUpperCore]
  | succ fuel ih =>
    intro n acc h
    show hexVal (if n < 16 then hexDigitUpper (n % 16) :: acc
      else toHexUpperCore fuel (n / 16) (hexDigitUpper (n % 16) :: acc)) = _
    by_cases hn : n < 16
    · rw [if_pos hn, hexVal_cons, hexDigitVal_hexDigitUpper _ (Nat.mod_lt _ (by norm_num)),
        Nat.mod_eq_of_lt hn]
    · rw [if_neg hn]
      have hdiv : n / 16 < 16 ^ fuel := by
        rw [Nat.div_lt_iff_lt_mul (by norm_num : (0:Nat) < 16)]
        rw [pow_succ] at h
        exact h
      rw [ih (n / 16) _ hdiv, hexVal_cons,
        hexDigitVal_hexDigitUpper _ (Nat.mod_lt _ (by norm_num)), List.length_cons]
      have h2 : n = 16 * (n / 16) + n % 16 := (Nat.div_add_mod n 16).symm
      calc n / 16 * 16 ^ (acc.length + 1) + (n % 16 * 16 ^ acc.length + hexVal acc)
          = (16 * (n / 16) + n % 16) * 16 ^ acc.length + hexVal acc := by ring
        _ = n * 16 ^ acc.length + hexVal acc := by rw [← h2]

theorem u32HexUpper_val (n : Nat) (h : n < 2 ^ 32) : hexVal (u32HexUpper n) = n := by
  unfold u32HexUpper
  rw [Nat.mod_eq_of_lt h, toHexUpperCore_val 9 n [] (by norm_num; omega)]
  simp [hexVal]

/-- C8: parsing a pure HEX/HEX string whose halves fit in 32 bits and
formatting the result reproduces the same pair of hex halves: the
formatted text is the canonical uppercase rendering of exactly the two
parsed half values. -/
theorem parse_format_lsn_roundtrip (a b : List Char) (ha : a ≠ []) (hb : b ≠ [])
    (hahex : ∀ c ∈ a, isHexDigitChar c = true) (hbhex : ∀ c ∈ b, isHexDigitChar c = true)
    (ha32 : hexVal a < 2 ^ 32) (hb32 : hexVal b < 2 ^ 32) :
    parse_lsn (a ++ '/' :: b) = some (hexVal a * 2 ^ 32 + hexVal b) ∧
    format_lsn (hexVal a * 2 ^ 32 + hexVal b) =
      u32HexUpper (hexVal a) ++ '/' :: u32HexUpper (hexVal b) ∧
    hexVal (u32HexUpper (hexVal a)) = hexVal a ∧
    hexVal (u32HexUpper (hexVal b)) = hexVal b := by
  have hle : ∀ (l : List Char), hexVal l < 2 ^ 32 → hexVal l ≤ C_ULONG_MAX := by
    intro l hl
    unfold C_ULONG_MAX
    omega
  have hslash : '/' ∉ a := by
    intro hm
    exact (hex_char_facts (hahex '/' hm)).2.2.1 rfl
  have hchr := strchrIdx_append a '/' b hslash
  have hupper : strtoul16 (a ++ '/' :: b) = (hexVal a, a.length) := by
    have h := strtoul16_full_run [] [] [] a ('/' :: b) (by intro c hc; simp at hc)
      (Or.inl rfl) (Or.inl rfl) ⟨ha, hahex⟩ (Or.inr ⟨b, rfl⟩)
    simp only [List.nil_append, List.length_nil, Nat.zero_add] at h
    rw [h]
    unfold halfValue
    simp [Nat.not_lt.mpr (hle a ha32)]
  have hlower : strtoul16 b = (hexVal b, b.length) :=
    strtoul16_pure_hex b hb (fun c hc => hbhex c hc) (hle b hb32)
  have hdrop : (a ++ '/' :: b).drop (a.length + 1) = b := drop_append_cons a '/' b
  have hparse : parse_lsn (a ++ '/' :: b) = some (hexVal a * 2 ^ 32 + hexVal b) := by
    simp only [parse_lsn]
    rw [hchr, hupper]
    simp only [if_pos rfl]
    rw [hdrop, hlower]
    simp only [if_pos rfl]
    have hmod : hexVal a * 2 ^ 32 % 2 ^ 64 = hexVal a * 2 ^ 32 :=
      Nat.mod_eq_of_lt (by nlinarith [ha32])
    rw [hmod, lor_mul_pow_add 32 (hexVal a) (hexVal b) hb32]
    simp
  refine ⟨hparse, ?_, u32HexUpper_val _ ha32, u32HexUpper_val _ hb32⟩
  unfold format_lsn
  have hdiveq : (hexVal a * 2 ^ 32 + hexVal b) / 2 ^ 32 = hexVal a := by omega
  have hmodeq : (hexVal a * 2 ^ 32 + hexVal b) % 2 ^ 32 = hexVal b := by omega
  rw [hdiveq]
  unfold u32HexUpper
  rw [hmodeq, Nat.mod_eq_of_lt hb32]

theorem parse_format_lsn_roundtrip_witness :
    parse_lsn (("1A").data ++ '/' :: ("2b").data) =
      some (hexVal ("1A").data * 2 ^ 32 + hexVal ("2b").data) ∧
    hexVal (u32HexUpper (hexVal ("2b").data)) = hexVal ("2b").data :=
  ⟨(parse_format_lsn_roundtrip ("1A").data ("2b").data (by decide) (by decide) (by decide)
      (by decide) (by decide) (by decide)).1,
    (parse_format_lsn_roundtrip ("1A").data ("2b").data (by decide) (by decide) (by decide)
      (by decide) (by decide) (by decide)).2.2.2⟩

/-! ### C6: inverted LSN range gives exactly one error -/

/-- C6: a backup whose metadata is otherwise complete but whose nonzero
LSNs satisfy stop_lsn < start_lsn gets exactly one error from standard
validation, and that error embeds both LSN values. -/
theorem validate_backup_metadata_lsn_range (fs : FileSystem) (info : BackupInfo)
    (hid : info.backup_id ≠ []) (hpath : info.backup_path ≠ [])
    (hdir : fs.dirs info.backup_path = true)
    (_hst : 0 < info.start_time) (_het : 0 < info.end_time)
    (hts : info.start_time < info.end_time)
    (_htl : info.timeline ≠ 0) (_hv : info.pg_version ≠ 0)
    (hs : 0 < info.start_lsn) (he : 0 < info.stop_lsn) (hlt : info.stop_lsn < info.start_lsn) :
    (validate_backup_metadata fs info).errors = [invalidLsnMsg info.start_lsn info.stop_lsn] ∧
    (validate_backup_metadata fs info).errors.length = 1 ∧
    (toString info.start_lsn).data <:+: invalidLsnMsg info.start_lsn info.stop_lsn ∧
    (toString info.stop_lsn).data <:+: invalidLsnMsg info.start_lsn info.stop_lsn := by
  have h3 : ¬ (info.backup_path ≠ [] ∧ fs.dirs info.backup_path = false) := by
    rintro ⟨-, hf⟩
    rw [hdir] at hf
    cases hf
  have h6 : ¬ (0 < info.start_time ∧ 0 < info.end_time ∧ info.end_time ≤ info.start_time) := by
    rintro ⟨-, -, hle2⟩
    omega
  have h7 : 0 < info.start_lsn ∧ 0 < info.stop_lsn ∧ info.stop_lsn ≤ info.start_lsn :=
    ⟨hs, he, le_of_lt hlt⟩
  have herr : (validate_backup_metadata_issues fs info).1 =
      [invalidLsnMsg info.start_lsn info.stop_lsn] := by
    simp only [validate_backup_metadata_issues, if_neg hid, if_neg hpath, if_neg h3,
      if_neg h6, if_pos h7]
    simp
  have heq : (validate_backup_metadata fs info).errors =
      [invalidLsnMsg info.start_lsn info.stop_lsn] := by
    unfold validate_backup_metadata
    exact herr
  refine ⟨heq, by rw [heq]; rfl, ?_, ?_⟩
  · exact ⟨("Invalid LSN range: start_lsn (").data,
      (") >= stop_lsn (").data ++ (toString info.stop_lsn).data ++ (")").data,
      by simp [invalidLsnMsg]⟩
  · exact ⟨("Invalid LSN range: start_lsn (").data ++ (toString info.start_lsn).data ++
      (") >= stop_lsn (").data, (")").data,
      by simp [invalidLsnMsg]⟩

theorem validate_backup_metadata_lsn_range_witness :
    (validate_backup_metadata trivialFS lsnRangeCexInfo).errors = [invalidLsnMsg 5 3] :=
  (validate_backup_metadata_lsn_range trivialFS lsnRangeCexInfo (by decide) (by decide) rfl
    (by decide) (by decide) (by decide) (by decide) (by decide) (by decide) (by decide)
    (by decide)).1

/-! ### WAL availability loop lemmas -/

theorem keyToSeg_segKey (s : WALSegmentName) (h : s.seg_id < 2 ^ 32) :
    keyToSeg s.timeline (segKey s) = s := by
  obtain ⟨tl, lg, sg⟩ := s
  simp only [keyToSeg, segKey] at *
  have h32 : (2:Nat) ^ 32 = 4294967296 := by norm_num
  rw [h32] at *
  refine congrArg₂ (WALSegmentName.mk tl) ?_ ?_ <;> omega

theorem segRange_cons (tl a b : Nat) (h : a ≤ b) :
    segRange tl a b = keyToSeg tl a :: segRange tl (a + 1) b := by
  unfold segRange
  have h1 : b + 1 - a = (b - a) + 1 := by omega
  have h2 : b + 1 - (a + 1) = b - a := by omega
  rw [h1, h2, List.range_succ_eq_map, List.map_cons, List.map_map]
  refine congrArg₂ List.cons (by simp) ?_
  apply List.map_congr_left
  intro i _
  show keyToSeg tl (a + (i + 1)) = keyToSeg tl (a + 1 + i)
  have : a + (i + 1) = a + 1 + i := by omega
  rw [this]

theorem loopCond_iff (cur stop : WALSegmentName) (hc : cur.seg_id < 2 ^ 32)
    (hs : stop.seg_id < 2 ^ 32) :
    (cur.log_id < stop.log_id ∨ (cur.log_id = stop.log_id ∧ cur.seg_id ≤ stop.seg_id)) ↔
      segKey cur ≤ segKey stop := by
  unfold segKey
  have h32 : (2:Nat) ^ 32 = 4294967296 := by norm_num
  rw [h32]
  rw [h32] at hc hs
  omega

theorem wal_avail_loop_spec (stop : WALSegmentName) (wal : List WALSegmentName) :
    ∀ (fuel : Nat) (cur : WALSegmentName) (errs : List (List Char)) (missing : Nat),
      stop.log_id + 1 < 2 ^ 32 → stop.seg_id < 2 ^ 32 →
      cur.log_id < 2 ^ 32 → cur.seg_id < 2 ^ 32 →
      0 < fuel → segKey stop + 2 - segKey cur ≤ fuel →
      wal_avail_loop fuel stop wal cur errs missing =
        some (errs ++ ((segRange cur.timeline (segKey cur) (segKey stop)).filter
                (fun s => !(segment_exists_in_archive s wal))).map missingSegMsg,
              missing + ((segRange cur.timeline (segKey cur) (segKey stop)).filter
                (fun s => !(segment_exists_in_archive s wal))).length) := by
  intro fuel
  induction fuel with
  | zero =>
    intro cur errs missing _ _ _ _ h0 _
    omega
  | succ n ih =>
    intro cur errs missing hs1 hs2 hc1 hc2 _ hfuel
    by_cases hcond : cur.log_id < stop.log_id ∨
        (cur.log_id = stop.log_id ∧ cur.seg_id ≤ stop.seg_id)
    · have hkey : segKey cur ≤ segKey stop := (loopCond_iff cur stop hc2 hs2).mp hcond
      have hcurlog : cur.log_id ≤ stop.log_id := by
        rcases hcond with h | ⟨h, -⟩ <;> omega
      have hmodstop : (stop.log_id + 1) % 2 ^ 32 = stop.log_id + 1 := Nat.mod_eq_of_lt hs1
      have hrange : segRange cur.timeline (segKey cur) (segKey stop) =
          cur :: segRange cur.timeline (segKey cur + 1) (segKey stop) := by
        rw [segRange_cons cur.timeline (segKey cur) (segKey stop) hkey,
          keyToSeg_segKey cur hc2]
      -- next state facts
      have hkey2 : (if (cur.seg_id + 1) % 2 ^ 32 = 0 then (cur.log_id + 1) % 2 ^ 32
          else cur.log_id) * 2 ^ 32 + (cur.seg_id + 1) % 2 ^ 32 = segKey cur + 1 := by
        unfold segKey
        by_cases hw : cur.seg_id + 1 = 2 ^ 32
        · have e0 : (cur.seg_id + 1) % 2 ^ 32 = 0 := by rw [hw]; exact Nat.mod_self _
          rw [e0, if_pos rfl, Nat.mod_eq_of_lt (show cur.log_id + 1 < 2 ^ 32 by omega)]
          have h32 : (2:Nat) ^ 32 = 4294967296 := by norm_num
          rw [h32]
          rw [h32] at hw
          omega
        · have e1 : (cur.seg_id + 1) % 2 ^ 32 = cur.seg_id + 1 :=
            Nat.mod_eq_of_lt (by omega)
          rw [e1, if_neg (by omega)]
          exact (Nat.add_assoc _ _ _).symm
      have habort : ¬ ((stop.log_id + 1) % 2 ^ 32 <
          (if (cur.seg_id + 1) % 2 ^ 32 = 0 then (cur.log_id + 1) % 2 ^ 32
            else cur.log_id)) := by
        rw [hmodstop]
        by_cases hw : cur.seg_id + 1 = 2 ^ 32
        · have e0 : (cur.seg_id + 1) % 2 ^ 32 = 0 := by rw [hw]; exact Nat.mod_self _
          rw [e0, if_pos rfl, Nat.mod_eq_of_lt (show cur.log_id + 1 < 2 ^ 32 by omega)]
          omega
        · have e1 : (cur.seg_id + 1) % 2 ^ 32 = cur.seg_id + 1 :=
            Nat.mod_eq_of_lt (by omega)
          rw [e1, if_neg (by omega)]
          omega
      have hnl_lt : (if (cur.seg_id + 1) % 2 ^ 32 = 0 then (cur.log_id + 1) % 2 ^ 32
          else cur.log_id) < 2 ^ 32 := by
        split
        · exact Nat.mod_lt _ (by norm_num)
        · exact hc1
      have hns_lt : (cur.seg_id + 1) % 2 ^ 32 < 2 ^ 32 := Nat.mod_lt _ (by norm_num)
      have hreckey : segKey ⟨cur.timeline,
          (if (cur.seg_id + 1) % 2 ^ 32 = 0 then (cur.log_id + 1) % 2 ^ 32 else cur.log_id),
          (cur.seg_id + 1) % 2 ^ 32⟩ = segKey cur + 1 := hkey2
      have hrec := ih ⟨cur.timeline,
          (if (cur.seg_id + 1) % 2 ^ 32 = 0 then (cur.log_id + 1) % 2 ^ 32 else cur.log_id),
          (cur.seg_id + 1) % 2 ^ 32⟩
      rw [wal_avail_loop]
      rw [if_pos hcond, if_neg habort]
      by_cases hex : segment_exists_in_archive cur wal
      · rw [if_pos hex, if_pos hex]
        rw [hrec errs missing hs1 hs2 hnl_lt hns_lt (by omega)
          (by rw [hreckey]; omega)]
        rw [hreckey]
        rw [hrange, List.filter_cons]
        simp only [hex, Bool.not_true, Bool.false_eq_true, if_false]
      · rw [if_neg hex, if_neg hex]
        rw [hrec (errs ++ [missingSegMsg cur]) (missing + 1) hs1 hs2 hnl_lt hns_lt (by omega)
          (by rw [hreckey]; omega)]
        rw [hreckey]
        rw [hrange, List.filter_cons]
        have hexf : segment_exists_in_archive cur wal = false := by
          rcases Bool.eq_false_or_eq_true (segment_exists_in_archive cur wal) with h | h
          · exact absurd h hex
          · exact h
        simp only [hexf, Bool.not_false, if_true, List.map_cons, List.length_cons]
        rw [List.append_assoc]
        refine congrArg _ (congrArg₂ Prod.mk (by simp) (by omega))
    · rw [wal_avail_loop, if_neg hcond]
      have hgt : segKey stop < segKey cur := by
        by_contra hle2
        exact hcond ((loopCond_iff cur stop hc2 hs2).mpr (by omega))
      have hempty : segRange cur.timeline (segKey cur) (segKey stop) = [] := by
        unfold segRange
        have : segKey stop + 1 - segKey cur = 0 := by omega
        rw [this]
        rfl
      rw [hempty]
      simp

theorem lsn_to_seg_default (lsn tl : Nat) :
    lsn_to_seg lsn tl 0x1000000 =
      ⟨tl, lsn / 0x1000000 / 2 ^ 32 % 2 ^ 32, lsn / 0x1000000 % 2 ^ 32⟩ := by
  unfold lsn_to_seg
  norm_num

theorem lsn_seg_bounds (lsn tl : Nat) (h : lsn < 2 ^ 64) :
    (lsn_to_seg lsn tl 0x1000000).log_id + 1 < 2 ^ 32 ∧
    (lsn_to_seg lsn tl 0x1000000).log_id < 2 ^ 32 ∧
    (lsn_to_seg lsn tl 0x1000000).seg_id < 2 ^ 32 ∧
    segKey (lsn_to_seg lsn tl 0x1000000) < 2 ^ 41 := by
  rw [lsn_to_seg_default]
  unfold segKey
  dsimp only
  refine ⟨by omega, by omega, by omega, by omega⟩

theorem lsn_to_seg_timeline (lsn tl sz : Nat) : (lsn_to_seg lsn tl sz).timeline = tl := rfl

/-! ### C1: availability errors are exactly the missing expected segments -/

/-- C1: for a backup with both LSNs nonzero (and in uint64 range),
check_wal_availability enumerates exactly the segments from the start
segment to the stop segment inclusive and reports one canonical 24-hex
"Missing WAL segment" error per expected segment absent from the
inventory; status is OK with no errors when none is missing and ERROR
with exactly that many errors otherwise. -/
theorem check_wal_availability_spec (backup : BackupInfo) (wal : List WALSegmentName)
    (h1 : backup.start_lsn ≠ 0) (_h2 : backup.stop_lsn ≠ 0)
    (hb1 : backup.start_lsn < 2 ^ 64) (hb2 : backup.stop_lsn < 2 ^ 64) :
    check_wal_availability backup wal =
      some ⟨if 0 < (missing_segments backup wal).length then .ERROR else .OK,
            (missing_segments backup wal).map missingSegMsg, []⟩ := by
  obtain ⟨hsl1, hsl2, hsl3, hsl4⟩ := lsn_seg_bounds backup.start_lsn backup.timeline hb1
  obtain ⟨hpl1, hpl2, hpl3, hpl4⟩ := lsn_seg_bounds backup.stop_lsn backup.timeline hb2
  unfold check_wal_availability
  rw [if_neg (by tauto)]
  dsimp only
  rw [wal_avail_loop_spec (lsn_to_seg backup.stop_lsn backup.timeline 0x1000000) wal
    WAL_CHECK_FUEL (lsn_to_seg backup.start_lsn backup.timeline 0x1000000) [] 0
    hpl1 hpl3 hsl2 hsl3 (by norm_num [WAL_CHECK_FUEL])
    (by unfold WAL_CHECK_FUEL; omega)]
  unfold missing_segments expected_segments
  rw [lsn_to_seg_timeline backup.start_lsn backup.timeline 0x1000000]
  simp

theorem check_wal_availability_spec_witness :
    check_wal_availability
      { zeroBackupInfo with timeline := 1, start_lsn := 0x100, stop_lsn := 0x2000028 }
      [⟨1, 0, 0⟩, ⟨1, 0, 2⟩] =
      some ⟨.ERROR, [missingSegMsg ⟨1, 0, 1⟩], []⟩ := by
  have h := check_wal_availability_spec
    { zeroBackupInfo with timeline := 1, start_lsn := 0x100, stop_lsn := 0x2000028 }
    [⟨1, 0, 0⟩, ⟨1, 0, 2⟩] (by decide) (by decide) (by decide) (by decide)
  rw [h]
  rfl

/-! ### C7: the enumeration is bounded -/

/-- C7: the segment enumeration of check_wal_availability always
terminates (the embedded loop completes within its fuel for every uint64
LSN pair and inventory), and whenever an iteration would move the
current log-id beyond stop log-id + 1 (in unsigned arithmetic) the hard
bound stops the loop at once and appends the terminal "too many
segments" error. -/
theorem wal_check_bounded :
    (∀ (backup : BackupInfo) (wal : List WALSegmentName),
      backup.start_lsn < 2 ^ 64 → backup.stop_lsn < 2 ^ 64 →
      (check_wal_availability backup wal).isSome) ∧
    (∀ (fuel : Nat) (stop_seg : WALSegmentName) (wal : List WALSegmentName)
        (cur : WALSegmentName) (errs : List (List Char)) (missing : Nat),
      (cur.log_id < stop_seg.log_id ∨
        (cur.log_id = stop_seg.log_id ∧ cur.seg_id ≤ stop_seg.seg_id)) →
      ((stop_seg.log_id + 1) % 2 ^ 32 <
        (if (cur.seg_id + 1) % 2 ^ 32 = 0 then (cur.log_id + 1) % 2 ^ 32 else cur.log_id)) →
      wal_avail_loop (fuel + 1) stop_seg wal cur errs missing =
        some ((if segment_exists_in_archive cur wal then errs
                else errs ++ [missingSegMsg cur]) ++ [walAbortMsg],
              if segment_exists_in_archive cur wal then missing else missing + 1)) := by
  constructor
  · intro backup wal hb1 hb2
    by_cases hz : backup.start_lsn = 0 ∧ backup.stop_lsn = 0
    · unfold check_wal_availability
      rw [if_pos hz]
      rfl
    · obtain ⟨hsl1, hsl2, hsl3, hsl4⟩ := lsn_seg_bounds backup.start_lsn backup.timeline hb1
      obtain ⟨hpl1, hpl2, hpl3, hpl4⟩ := lsn_seg_bounds backup.stop_lsn backup.timeline hb2
      unfold check_wal_availability
      rw [if_neg hz]
      dsimp only
      rw [wal_avail_loop_spec (lsn_to_seg backup.stop_lsn backup.timeline 0x1000000) wal
        WAL_CHECK_FUEL (lsn_to_seg backup.start_lsn backup.timeline 0x1000000) [] 0
        hpl1 hpl3 hsl2 hsl3 (by norm_num [WAL_CHECK_FUEL])
        (by unfold WAL_CHECK_FUEL; omega)]
      rfl
  · intro fuel stop_seg wal cur errs missing hcond habort2
    rw [wal_avail_loop]
    rw [if_pos hcond, if_pos habort2]

theorem wal_check_bounded_witness :
    (check_wal_availability zeroBackupInfo []).isSome ∧
    wal_avail_loop 1 ⟨0, 4294967295, 0⟩ [] ⟨0, 1, 0⟩ [] 0 =
      some ([missingSegMsg ⟨0, 1, 0⟩, walAbortMsg], 1) := by
  constructor
  · exact wal_check_bounded.1 zeroBackupInfo [] (by decide) (by decide)
  · have h := wal_check_bounded.2 0 ⟨0, 4294967295, 0⟩ [] ⟨0, 1, 0⟩ [] 0
      (by decide) (by decide)
    rw [h]
    rfl

/-! ### Claim C5: sibling exclusion of pg_basebackup detection -/

/-- strrchr never finds a character absent from the string. -/
theorem lastIdxOf_eq_none (c : Char) :
    ∀ l : List Char, c ∉ l → lastIdxOf c l = none := by
  intro l
  induction l with
  | nil => intro _; rfl
  | cons x t ih =>
    intro h
    have ht : lastIdxOf c t = none := ih (fun hm => h (List.mem_cons_of_mem x hm))
    cases hbe : x == c with
    | true => exact absurd (List.mem_cons.mpr (Or.inl (eq_of_beq hbe).symm)) h
    | false =>
      show (match lastIdxOf c t with
        | some i => some (i + 1)
        | none => if x == c then some 0 else none) = none
      rw [ht, hbe]
      rfl

/-- In parent ++ slash ++ name with a slash-free name, strrchr finds the
slash exactly at the parent length. -/
theorem lastIdxOf_append_slash (name : List Char) (h : ('/' : Char) ∉ name) :
    ∀ parent : List Char, lastIdxOf '/' (parent ++ '/' :: name) = some parent.length := by
  intro parent
  induction parent with
  | nil =>
    show (match lastIdxOf '/' name with
      | some i => some (i + 1)
      | none => if '/' == '/' then some 0 else none) = some 0
    rw [lastIdxOf_eq_none '/' name h]
    rfl
  | cons x t ih =>
    show (match lastIdxOf '/' (t ++ '/' :: name) with
      | some i => some (i + 1)
      | none => if x == '/' then some 0 else none) = some (t.length + 1)
    rw [ih]

/-- C5: the sibling exclusion does hold away from the filesystem root: a
directory addressed as parent/name, with a nonempty parent path shorter
than PATH_MAX whose directory holds a backup.control file, is never
detected as a pg_basebackup backup.  (The root-level escape is the
subject of the counterexample below.) -/
theorem pg_basebackup_detect_sibling_exclusion (fs : FileSystem) (parent name : List Char)
    (hp : parent ≠ []) (hlen : parent.length < 4096) (hn : ('/' : Char) ∉ name)
    (hctl : file_exists fs (path_join parent (("backup.control").data)) = true) :
    pg_basebackup_detect fs (parent ++ '/' :: name) = false := by
  unfold pg_basebackup_detect
  by_cases hdir : fs.dirs (parent ++ '/' :: name) = true
  · rw [if_neg (not_not_intro hdir)]
    dsimp only
    rw [lastIdxOf_append_slash name hn parent]
    have hne : parent.length ≠ 0 := by
      cases parent with
      | nil => exact absurd rfl hp
      | cons a b => simp
    dsimp only
    rw [if_pos (show parent.length ≠ 0 ∧ parent.length < 4096 from ⟨hne, hlen⟩)]
    rw [List.take_left, hctl]
    rfl
  · rw [if_pos hdir]

/-- C5 witness: the data subdirectory of the concrete pg_probackup
backup at /backups/inst1/BAD1 is rejected by pg_basebackup detection. -/
theorem pg_basebackup_detect_sibling_exclusion_witness :
    pg_basebackup_detect probackupBadCtlFS (cexPath ++ '/' :: ("database").data) = false :=
  pg_basebackup_detect_sibling_exclusion probackupBadCtlFS cexPath (("database").data)
    (by decide) (by decide) (by decide) (by decide)

/-- C5 counterexample: a pg_probackup backup living at the filesystem
root.  The root directory is detected as a block-level backup and holds
backup.control, yet its data subdirectory /database is also detected as
a streaming backup, because the last slash of "/database" sits at index
0 and the exclusion rule requires a positive index. -/
theorem pg_basebackup_detect_root_overlap :
    pg_probackup_detect rootProbackupFS (("/").data) = true ∧
    file_exists rootProbackupFS (("/backup.control").data) = true ∧
    pg_basebackup_detect rootProbackupFS (("/database").data) = true := by
  refine ⟨?_, ?_, ?_⟩ <;> decide

/-! ### Claim C4: scan behavior on missing or malformed metadata -/

/-- C4 (amended): the two dialects differ.  The streaming adapter is
tolerant as specified: whenever its metadata read fails, pg_basebackup_scan
still returns a record and that record has status ERROR.  The block-level
adapter never drops a backup whose control file is readable (detection
requires that file): pg_probackup_scan returns a record for it — but a
malformed control file leaves the record's default status untouched,
which is OK, not ERROR (the counterexample below). -/
theorem scan_metadata_failure_behavior :
    (∀ (fs : FileSystem) (p : List Char),
      (pg_basebackup_read_metadata fs p (pg_basebackup_init_info p)).1 = false →
      (pg_basebackup_scan fs p).status = BackupStatus.ERROR) ∧
    (∀ (fs : FileSystem) (p : List Char),
      (fs.files (path_join p (("backup.control").data))).isSome = true →
      (pg_probackup_scan fs p).isSome = true) := by
  constructor
  · intro fs p hfail
    unfold pg_basebackup_scan
    dsimp only
    rw [hfail]
    rw [if_neg (by decide : ¬ (false = true))]
    repeat' split
    all_goals rfl
  · intro fs p hsome
    obtain ⟨lines, hlines⟩ := Option.isSome_iff_exists.mp hsome
    unfold pg_probackup_scan pg_probackup_read_metadata
    rw [hlines]
    dsimp only
    rw [if_neg (by decide : ¬ (true = false))]
    repeat' split
    all_goals rfl

/-- C4 witness: a path with no metadata at all makes the streaming read
fail and the scan record carry status ERROR; the junk control file of
the concrete block-level backup is readable, so its scan does return a
record. -/
theorem scan_metadata_failure_behavior_witness :
    (pg_basebackup_scan emptyFS (("/x").data)).status = BackupStatus.ERROR ∧
    (pg_probackup_scan probackupBadCtlFS cexPath).isSome = true :=
  ⟨scan_metadata_failure_behavior.1 emptyFS (("/x").data) (by decide),
   scan_metadata_failure_behavior.2 probackupBadCtlFS cexPath (by decide)⟩

/-- C4 counterexample: the concrete pg_probackup backup directory is
accepted by detection and its backup.control is readable but pure junk,
yet the scanned record reports status OK, not ERROR. -/
theorem pg_probackup_scan_junk_control_status :
    pg_probackup_detect probackupBadCtlFS cexPath = true ∧
    (pg_probackup_scan probackupBadCtlFS cexPath).map (fun i => i.status) =
      some BackupStatus.OK := by
  refine ⟨?_, ?_⟩ <;> decide

/-! ### Claim C3: what parse_lsn actually accepts -/

/-- Inversion of a successful strchr: the string splits at the reported
index and the character does not occur before it. -/
theorem strchrIdx_some_decomp (c : Char) :
    ∀ (s : List Char) (i : Nat), strchrIdx s c = some i →
      ∃ u l, s = u ++ c :: l ∧ u.length = i ∧ c ∉ u := by
  intro s
  induction s with
  | nil => intro i h; exact Option.noConfusion h
  | cons x t ih =>
    intro i h
    cases hx : x == c with
    | true =>
      have hxc : x = c := eq_of_beq hx
      rw [show strchrIdx (x :: t) c =
        (if x == c then some 0 else (strchrIdx t c).map (fun n => n + 1)) from rfl,
        hx, if_pos rfl] at h
      obtain rfl : (0 : Nat) = i := Option.some.inj h
      exact ⟨[], t, by rw [hxc]; rfl, rfl, by simp⟩
    | false =>
      rw [show strchrIdx (x :: t) c =
        (if x == c then some 0 else (strchrIdx t c).map (fun n => n + 1)) from rfl,
        hx, if_neg (by decide : ¬ (false = true))] at h
      obtain ⟨j, hj, hji⟩ := Option.map_eq_some'.mp h
      obtain ⟨u, l, rfl, rfl, hnot⟩ := ih j hj
      refine ⟨x :: u, l, rfl, hji, ?_⟩
      intro hm
      rcases List.mem_cons.mp hm with he | hm2
      · exact (beq_eq_false_iff_ne.mp hx) he.symm
      · exact hnot hm2

/-- Decomposition of any strtoul base-16 run: either nothing converts
(value and consumed both zero), or the consumed prefix splits into a
space run, an optional sign, an optional 0x prefix and a nonempty hex
digit run which together determine value and consumed count. -/
theorem strtoul16_decomp (s : List Char) :
    ((strtoul16 s).1 = 0 ∧ (strtoul16 s).2 = 0) ∨
    (∃ w sg pre d, SpaceRun w ∧ SignShape sg ∧ PreShape pre ∧ HexRun d ∧
      (strtoul16 s).1 = halfValue sg d ∧
      (strtoul16 s).2 = w.length + sg.length + pre.length + d.length ∧
      s.take (strtoul16 s).2 = w ++ sg ++ pre ++ d) := by
  set w := s.takeWhile isSpaceChar with hwdef
  set r1 := s.drop w.length with hr1def
  set sgn : Nat := if r1.take 1 = ['+'] ∨ r1.take 1 = ['-'] then 1 else 0 with hsgndef
  set r2 := r1.drop sgn with hr2def
  set pfx : Nat := if (r2.take 2 = ['0', 'x'] ∨ r2.take 2 = ['0', 'X']) ∧ headIsHex (r2.drop 2)
    then 2 else 0 with hpfxdef
  set r3 := r2.drop pfx with hr3def
  set d := r3.takeWhile isHexDigitChar with hddef
  have hmach : strtoul16 s =
      if d.isEmpty then (0, 0)
      else
        (if (if r1.take 1 = ['-'] then true else false) = true
          then (2 ^ 64 - (if C_ULONG_MAX < hexVal d then C_ULONG_MAX else hexVal d)) % 2 ^ 64
          else (if C_ULONG_MAX < hexVal d then C_ULONG_MAX else hexVal d),
         w.length + sgn + pfx + d.length) := rfl
  by_cases hde : d.isEmpty = true
  · left
    rw [hmach, if_pos hde]
    exact ⟨rfl, rfl⟩
  · have hdne : d ≠ [] := by intro h0; exact hde (by rw [h0]; rfl)
    have hsgshape : SignShape (r1.take sgn) ∧ (r1.take sgn).length = sgn := by
      by_cases hc1 : r1.take 1 = ['+'] ∨ r1.take 1 = ['-']
      · have h1 : sgn = 1 := by rw [hsgndef, if_pos hc1]
        rw [h1]
        rcases hc1 with hpl | hmi
        · rw [hpl]
          exact ⟨Or.inr (Or.inl rfl), rfl⟩
        · rw [hmi]
          exact ⟨Or.inr (Or.inr rfl), rfl⟩
      · have h0 : sgn = 0 := by rw [hsgndef, if_neg hc1]
        rw [h0]
        exact ⟨Or.inl rfl, rfl⟩
    have hpreshape : PreShape (r2.take pfx) ∧ (r2.take pfx).length = pfx := by
      by_cases hc2 : (r2.take 2 = ['0', 'x'] ∨ r2.take 2 = ['0', 'X']) ∧
          headIsHex (r2.drop 2) = true
      · have h2 : pfx = 2 := by rw [hpfxdef, if_pos hc2]
        rw [h2]
        rcases hc2.1 with hlo | hup
        · rw [hlo]
          exact ⟨Or.inr (Or.inl rfl), rfl⟩
        · rw [hup]
          exact ⟨Or.inr (Or.inr rfl), rfl⟩
      · have h0 : pfx = 0 := by rw [hpfxdef, if_neg hc2]
        rw [h0]
        exact ⟨Or.inl rfl, rfl⟩
    have hval : (if (if r1.take 1 = ['-'] then true else false) = true
        then (2 ^ 64 - (if C_ULONG_MAX < hexVal d then C_ULONG_MAX else hexVal d)) % 2 ^ 64
        else (if C_ULONG_MAX < hexVal d then C_ULONG_MAX else hexVal d)) =
        halfValue (r1.take sgn) d := by
      by_cases hm : r1.take 1 = ['-']
      · have h1 : sgn = 1 := by rw [hsgndef, if_pos (Or.inr hm)]
        rw [h1]
        simp only [halfValue]
        rw [if_pos hm, if_pos hm]
        simp
      · have hsgne : r1.take sgn ≠ ['-'] := by
          by_cases hc1 : r1.take 1 = ['+'] ∨ r1.take 1 = ['-']
          · have h1 : sgn = 1 := by rw [hsgndef, if_pos hc1]
            rw [h1]
            exact hm
          · have h0 : sgn = 0 := by rw [hsgndef, if_neg hc1]
            rw [h0]
            simp
        simp only [halfValue]
        rw [if_neg hm, if_neg hsgne, if_neg (by decide : ¬ ((false : Bool) = true))]
    have hs1 : s = w ++ r1 := by
      rw [hr1def, hwdef]
      exact takeWhile_self_decomp isSpaceChar s
    have hr12 : r1.take sgn ++ r2 = r1 := by
      rw [hr2def]
      exact List.take_append_drop sgn r1
    have hr23 : r2.take pfx ++ r3 = r2 := by
      rw [hr3def]
      exact List.take_append_drop pfx r2
    have hr3d : d ++ r3.drop d.length = r3 := by
      rw [hddef]
      exact (takeWhile_self_decomp isHexDigitChar r3).symm
    have hsfull : s = (w ++ (r1.take sgn ++ (r2.take pfx ++ d))) ++ r3.drop d.length := by
      conv_lhs => rw [hs1, ← hr12, ← hr23, ← hr3d]
      simp [List.append_assoc]
    have hlen2 : (w ++ (r1.take sgn ++ (r2.take pfx ++ d))).length =
        w.length + sgn + pfx + d.length := by
      simp only [List.length_append, hsgshape.2, hpreshape.2]
      omega
    have htake : s.take (w.length + sgn + pfx + d.length) =
        w ++ r1.take sgn ++ r2.take pfx ++ d := by
      rw [hsfull, ← hlen2, List.take_left]
      simp [List.append_assoc]
    right
    refine ⟨w, r1.take sgn, r2.take pfx, d,
      fun c hc => List.mem_takeWhile_imp (hwdef ▸ hc),
      hsgshape.1, hpreshape.1,
      ⟨hdne, fun c hc => List.mem_takeWhile_imp (hddef ▸ hc)⟩, ?_, ?_, ?_⟩
    · rw [hmach, if_neg hde]
      exact hval
    · rw [hmach, if_neg hde]
      rw [hsgshape.2, hpreshape.2]
    · rw [hmach, if_neg hde]
      exact htake

/-- A string starting with the slash itself converts nothing: strtoul
returns zero having consumed zero characters. -/
theorem strtoul16_slash_head (l : List Char) : strtoul16 ('/' :: l) = (0, 0) := by
  rcases strtoul16_decomp ('/' :: l) with ⟨h1, h2⟩ |
    ⟨w, sg, pre, d, hsp, hsg, hpre, hd, hval, hcons, htake⟩
  · have hp : strtoul16 ('/' :: l) =
        ((strtoul16 ('/' :: l)).1, (strtoul16 ('/' :: l)).2) := rfl
    rw [hp, h1, h2]
  · exfalso
    have hd1 : 1 ≤ d.length := by
      cases hdc : d with
      | nil => exact absurd hdc hd.1
      | cons a t => simp
    have hn1 : 1 ≤ (strtoul16 ('/' :: l)).2 := by
      rw [hcons]
      omega
    have hhead : (w ++ sg ++ pre ++ d).take 1 = ['/'] := by
      rw [← htake, List.take_take]
      have hmin : min 1 (strtoul16 ('/' :: l)).2 = 1 := by omega
      rw [hmin]
      rfl
    cases w with
    | cons a t =>
      have ha : ([a] : List Char) = ['/'] := hhead
      have ha2 : a = '/' := by injection ha
      have hws := hsp a (List.mem_cons_self a t)
      rw [ha2] at hws
      exact absurd hws (by decide)
    | nil =>
      rcases hsg with rfl | rfl | rfl
      · rcases hpre with rfl | rfl | rfl
        · cases d with
          | nil => exact hd.1 rfl
          | cons a t =>
            have ha : ([a] : List Char) = ['/'] := hhead
            have ha2 : a = '/' := by injection ha
            have hhx := hd.2 a (List.mem_cons_self a t)
            rw [ha2] at hhx
            exact absurd hhx (by decide)
        · exact absurd (show (['0'] : List Char) = ['/'] from hhead) (by decide)
        · exact absurd (show (['0'] : List Char) = ['/'] from hhead) (by decide)
      · exact absurd (show (['+'] : List Char) = ['/'] from hhead) (by decide)
      · exact absurd (show (['-'] : List Char) = ['/'] from hhead) (by decide)

/-- C3 (amended): parse_lsn succeeds on exactly the strings with an
acceptable strtoul half before the first slash and one filling the whole
remainder after it, where a half is either empty (read as zero) or
whitespace, an optional sign and an optional 0x prefix followed by hex
digits — strictly more than the plain HEX/HEX shape the specification
states (see the counterexample theorem).  On success the value is
(upper << 32) | lower over the two unsigned long half values. -/
theorem parse_lsn_charact (s : List Char) (v : Nat) :
    parse_lsn s = some v ↔
      ∃ u l uv lv, s = u ++ '/' :: l ∧ ('/' : Char) ∉ u ∧ HalfNum u uv ∧ HalfNum l lv ∧
        v = Nat.lor (uv * 2 ^ 32 % 2 ^ 64) lv := by
  constructor
  · intro h
    unfold parse_lsn at h
    cases hchr : strchrIdx s '/' with
    | none => rw [hchr] at h; exact Option.noConfusion h
    | some i =>
      rw [hchr] at h
      dsimp only at h
      by_cases hui : (strtoul16 s).2 = i
      case neg => rw [if_neg hui] at h; exact Option.noConfusion h
      rw [if_pos hui] at h
      by_cases hlo : (strtoul16 (s.drop (i + 1))).2 = (s.drop (i + 1)).length
      case neg => rw [if_neg hlo] at h; exact Option.noConfusion h
      rw [if_pos hlo] at h
      have hv : Nat.lor ((strtoul16 s).1 * 2 ^ 32 % 2 ^ 64) (strtoul16 (s.drop (i + 1))).1 = v :=
        Option.some.inj h
      obtain ⟨u0, l0, hs, hlen, hnotin⟩ := strchrIdx_some_decomp '/' s i hchr
      refine ⟨u0, l0, (strtoul16 s).1, (strtoul16 (s.drop (i + 1))).1,
        hs, hnotin, ?_, ?_, hv.symm⟩
      · rcases strtoul16_decomp s with ⟨hv0, hc0⟩ |
          ⟨w, sg, pre, d, hsp, hsg, hpre, hd, hval, hcons, htake⟩
        · refine Or.inl ⟨?_, hv0⟩
          have hi0 : i = 0 := by rw [← hui, hc0]
          exact List.eq_nil_of_length_eq_zero (by rw [hlen, hi0])
        · refine Or.inr ⟨w, sg, pre, d, ?_, hsp, hsg, hpre, hd, hval⟩
          have hti : s.take i = u0 := by
            rw [hs, ← hlen, List.take_left]
          rw [← hti, ← hui]
          exact htake
      · have hdl : s.drop (i + 1) = l0 := by
          rw [hs, ← hlen]
          exact drop_append_cons u0 '/' l0
        rw [hdl] at hlo ⊢
        rcases strtoul16_decomp l0 with ⟨hv0, hc0⟩ |
          ⟨w, sg, pre, d, hsp, hsg, hpre, hd, hval, hcons, htake⟩
        · exact Or.inl ⟨List.eq_nil_of_length_eq_zero (by rw [← hlo, hc0]), hv0⟩
        · refine Or.inr ⟨w, sg, pre, d, ?_, hsp, hsg, hpre, hd, hval⟩
          have htl : l0.take (strtoul16 l0).2 = l0 := by rw [hlo, List.take_length]
          rw [← htl]
          exact htake
  · rintro ⟨u, l, uv, lv, rfl, hnotin, hu, hl, rfl⟩
    have hchr := strchrIdx_append u '/' l hnotin
    unfold parse_lsn
    rw [hchr]
    dsimp only
    have hupper : strtoul16 (u ++ '/' :: l) = (uv, u.length) := by
      rcases hu with ⟨rfl, rfl⟩ | ⟨w, sg, pre, d, rfl, hsp, hsg, hpre, hd, rfl⟩
      · rw [List.nil_append]
        exact strtoul16_slash_head l
      · have hfr := strtoul16_full_run w sg pre d ('/' :: l) hsp hsg hpre hd (Or.inr ⟨l, rfl⟩)
        rw [show (w ++ sg ++ pre ++ d) ++ '/' :: l = w ++ (sg ++ (pre ++ (d ++ '/' :: l))) by
          simp [List.append_assoc], hfr]
        have hlen3 : (w ++ sg ++ pre ++ d : List Char).length =
            w.length + sg.length + pre.length + d.length := by
          simp only [List.length_append]
        rw [hlen3]
    rw [hupper]
    dsimp only
    rw [if_pos rfl, drop_append_cons u '/' l]
    have hlower : strtoul16 l = (lv, l.length) := by
      rcases hl with ⟨rfl, rfl⟩ | ⟨w, sg, pre, d, rfl, hsp, hsg, hpre, hd, rfl⟩
      · rfl
      · have hfr := strtoul16_full_run w sg pre d [] hsp hsg hpre hd (Or.inl rfl)
        conv_lhs => rw [show (w ++ sg ++ pre ++ d : List Char) =
          w ++ (sg ++ (pre ++ (d ++ []))) by simp [List.append_assoc]]
        rw [hfr]
        have hlen3 : (w ++ sg ++ pre ++ d : List Char).length =
            w.length + sg.length + pre.length + d.length := by
          simp only [List.length_append]
        rw [hlen3]
    rw [hlower]
    dsimp only
    rw [if_pos rfl]

/-- C3 counterexample: parse_lsn accepts "0x1/2", which carries the 0x
prefix the specification excludes, and "/2", whose upper half is empty
rather than one or more hex digits; neither has the HEX/HEX shape. -/
theorem parse_lsn_cex :
    isHexSlashHex (("0x1/2").data) = false ∧
    parse_lsn (("0x1/2").data) = some 4294967298 ∧
    isHexSlashHex (("/2").data) = false ∧
    parse_lsn (("/2").data) = some 2 := by
  refine ⟨?_, ?_, ?_, ?_⟩ <;> decide
